import Mathlib

/-!
Verification development for the SCID-5-PD assessment pipeline.

The Python sources are shallowly embedded:
 * `src/modules/rater.py`   — JSON extraction and normalization of the scoring
   service's raw text (`evaluate_response`, lines 78-134).
 * `src/modules/exploration_engine.py` — the audio callback with silence
   detection (`AudioRecorder._audio_callback`).
 * `src/modules/gui.py`     — `TranscriptionThread.run` (error substitution).
 * `src/main.py`            — session record, `save_session`,
   `get_flagged_criteria`, `compute_disorder_verdicts`, and the stage
   pipeline `run_gui_pipeline` / `run_evaluation` / `run_report`, modelled as
   an operational semantics with crash/resume (sessions are resumable and
   state is persisted after every step).

Machine reals (Python floats, `time.time()` stamps, RMS amplitudes) are
modelled as exact rationals; the silence test `sqrt(mean(x^2)) < thr` is
modelled by the equivalent `mean(x^2) < thr^2` (both sides nonnegative).
-/

namespace Scid

/-! ## Association lists (Python `dict` with insertion order) -/

/-- First-match lookup (Python dict keys are unique, so this is `d.get(k)`). -/
def alookup {α : Type} (m : List (String × α)) (k : String) : Option α :=
  match m.find? (fun p => p.1 == k) with
  | some p => some p.2
  | none => none

/-- `d[k] = v` on an insertion-ordered dict: overwrite in place if the key is
present, else append at the end. -/
def dictSet {α : Type} (m : List (String × α)) (k : String) (v : α) :
    List (String × α) :=
  if m.any (fun p => p.1 == k) then
    m.map (fun p => if p.1 == k then (k, v) else p)
  else
    m ++ [(k, v)]

/-- `k in d`. -/
def memKey {α : Type} (m : List (String × α)) (k : String) : Bool :=
  m.any (fun p => p.1 == k)

/-! ## Character-list string operations

Structural models of the Python string methods used by the sources
(`.strip()`, `.startswith(...)`, `.split("\n")`, `"\n".join(...)`,
slicing), kept kernel-reducible. -/

/-- Python `s.strip()` (whitespace from both ends). -/
def charTrim (cs : List Char) : List Char :=
  ((cs.dropWhile Char.isWhitespace).reverse.dropWhile Char.isWhitespace).reverse

/-- Python `s.strip()` on a string. -/
def strTrim (s : String) : String := String.mk (charTrim s.toList)

/-- Python `s.startswith(p)`. -/
def strStartsWith (s p : String) : Bool := p.toList.isPrefixOf s.toList

/-- Python `s.split("\n")` on the character list. -/
def splitNl : List Char → List (List Char)
  | [] => [[]]
  | c :: rest =>
    let r := splitNl rest
    if c = '\n' then [] :: r else (c :: r.headI) :: r.tail

/-- Python `s.split("\n")`. -/
def strSplitNl (s : String) : List String := (splitNl s.toList).map String.mk

/-- Python `"\n".join(lines)`. -/
def joinNl (ls : List String) : String :=
  String.mk (List.intercalate ['\n'] (ls.map String.toList))

/-- Python `s[:n]`. -/
def strTake (s : String) (n : ℕ) : String := String.mk (s.toList.take n)

/-! ## JSON values and a model of `json.loads`

`rater.py` feeds untrusted text to `json.loads`.  We model JSON values and a
total, fuel-bounded parser for the JSON grammar (objects, arrays, strings
with the standard escapes, numbers with fraction/exponent, literals), which
fails (returns `none`) exactly where `json.loads` raises `JSONDecodeError`.
Python builds dicts from JSON objects with last-duplicate-wins semantics. -/

inductive JVal : Type where
  | jnull : JVal
  | jbool : Bool → JVal
  | jnum : ℚ → JVal
  | jstr : String → JVal
  | jarr : List JVal → JVal
  | jobj : List (String × JVal) → JVal

/-- `d.get(k)` on a parsed JSON object: last binding wins, as in Python. -/
def jget (kvs : List (String × JVal)) (k : String) : Option JVal :=
  match (kvs.reverse).find? (fun p => p.1 == k) with
  | some p => some p.2
  | none => none

/-- JSON whitespace skipping. -/
def skipWs : List Char → List Char
  | [] => []
  | c :: cs => if c = ' ' ∨ c = '\t' ∨ c = '\n' ∨ c = '\r' then skipWs cs else c :: cs

/-- Leading decimal digits. -/
def takeDigits : List Char → (List Char × List Char)
  | [] => ([], [])
  | c :: cs =>
    if c.isDigit then
      let r := takeDigits cs
      (c :: r.1, r.2)
    else ([], c :: cs)

def digitsToNat (ds : List Char) : ℕ :=
  ds.foldl (fun acc c => 10 * acc + (c.toNat - 48)) 0

/-- Parse a JSON number (after an optional leading minus has been noted):
`int frac? exp?`, with the JSON leading-zero restriction. -/
def parseNumTail (neg : Bool) (cs : List Char) : Option (ℚ × List Char) :=
  let (ints, rest) := takeDigits cs
  if ints = [] then none
  else if ints.length > 1 ∧ ints.headI = '0' then none
  else
    let intPart : ℚ := (digitsToNat ints : ℚ)
    let (fracPart, rest2) :=
      match rest with
      | '.' :: cs2 =>
        let (fds, rest') := takeDigits cs2
        if fds = [] then (none, rest)
        else (some ((digitsToNat fds : ℚ) / ((10 : ℚ) ^ fds.length)), rest')
      | _ => (some 0, rest)
    match fracPart with
    | none => none
    | some fq =>
      let (expPart, rest3) :=
        match rest2 with
        | e :: cs3 =>
          if e = 'e' ∨ e = 'E' then
            match cs3 with
            | '+' :: cs4 =>
              let (eds, rest') := takeDigits cs4
              if eds = [] then (none, rest2) else (some (digitsToNat eds : ℤ), rest')
            | '-' :: cs4 =>
              let (eds, rest') := takeDigits cs4
              if eds = [] then (none, rest2) else (some (-(digitsToNat eds : ℤ)), rest')
            | _ =>
              let (eds, rest') := takeDigits cs3
              if eds = [] then (none, rest2) else (some (digitsToNat eds : ℤ), rest')
          else (some 0, rest2)
        | [] => (some 0, rest2)
      match expPart with
      | none => none
      | some ex =>
        let mag : ℚ := (intPart + fq) * (10 : ℚ) ^ ex
        some (if neg then -mag else mag, rest3)

def hexVal (c : Char) : Option ℕ :=
  if c.isDigit then some (c.toNat - 48)
  else if 'a' ≤ c ∧ c ≤ 'f' then some (c.toNat - 87)
  else if 'A' ≤ c ∧ c ≤ 'F' then some (c.toNat - 55)
  else none

/-- The single-character JSON escapes. -/
def escChar (e : Char) : Option Char :=
  if e = '"' then some '"'
  else if e = '\\' then some '\\'
  else if e = '/' then some '/'
  else if e = 'b' then some '\x08'
  else if e = 'f' then some '\x0c'
  else if e = 'n' then some '\n'
  else if e = 'r' then some '\r'
  else if e = 't' then some '\t'
  else none

/-- Parse the body of a JSON string (the opening quote already consumed). -/
def parseStrTail : List Char → Option (List Char × List Char)
  | [] => none
  | '"' :: cs => some ([], cs)
  | '\\' :: e :: cs2 =>
    if e = 'u' then
      match cs2 with
      | h1 :: h2 :: h3 :: h4 :: cs3 =>
        match hexVal h1, hexVal h2, hexVal h3, hexVal h4 with
        | some a, some b, some c3, some d =>
          (parseStrTail cs3).map
            (fun r => (Char.ofNat (4096 * a + 256 * b + 16 * c3 + d) :: r.1, r.2))
        | _, _, _, _ => none
      | _ => none
    else
      match escChar e with
      | some ch => (parseStrTail cs2).map (fun r => (ch :: r.1, r.2))
      | none => none
  | ['\\'] => none
  | c :: cs =>
    if c.toNat < 32 then none
    else (parseStrTail cs).map (fun r => (c :: r.1, r.2))

mutual

/-- Parse one JSON value from the head of the input. -/
def parseVal : ℕ → List Char → Option (JVal × List Char)
  | 0, _ => none
  | fuel + 1, cs =>
    match skipWs cs with
    | [] => none
    | c :: cs' =>
      if c = 'n' then
        match cs' with
        | 'u' :: 'l' :: 'l' :: rest => some (.jnull, rest)
        | _ => none
      else if c = 't' then
        match cs' with
        | 'r' :: 'u' :: 'e' :: rest => some (.jbool true, rest)
        | _ => none
      else if c = 'f' then
        match cs' with
        | 'a' :: 'l' :: 's' :: 'e' :: rest => some (.jbool false, rest)
        | _ => none
      else if c = '"' then
        match parseStrTail cs' with
        | some (body, rest) => some (.jstr (String.mk body), rest)
        | none => none
      else if c = '-' then
        match parseNumTail true cs' with
        | some (q, rest) => some (.jnum q, rest)
        | none => none
      else if c.isDigit then
        match parseNumTail false (c :: cs') with
        | some (q, rest) => some (.jnum q, rest)
        | none => none
      else if c = '\x5b' then
        match skipWs cs' with
        | '\x5d' :: rest => some (.jarr [], rest)
        | cs'' =>
          match parseArrItems fuel cs'' with
          | some (xs, rest) => some (.jarr xs, rest)
          | none => none
      else if c = '\x7b' then
        match skipWs cs' with
        | '\x7d' :: rest => some (.jobj [], rest)
        | cs'' =>
          match parseObjItems fuel cs'' with
          | some (kvs, rest) => some (.jobj kvs, rest)
          | none => none
      else none

/-- Parse `value (',' value)* ']'`. -/
def parseArrItems : ℕ → List Char → Option (List JVal × List Char)
  | 0, _ => none
  | fuel + 1, cs =>
    match parseVal fuel cs with
    | none => none
    | some (v, rest) =>
      match skipWs rest with
      | ',' :: rest2 =>
        match parseArrItems fuel rest2 with
        | some (vs, rest3) => some (v :: vs, rest3)
        | none => none
      | '\x5d' :: rest2 => some ([v], rest2)
      | _ => none

/-- Parse `string ':' value (',' string ':' value)* '}'`. -/
def parseObjItems : ℕ → List Char → Option (List (String × JVal) × List Char)
  | 0, _ => none
  | fuel + 1, cs =>
    match skipWs cs with
    | '"' :: cs' =>
      match parseStrTail cs' with
      | none => none
      | some (key, rest) =>
        match skipWs rest with
        | ':' :: rest2 =>
          match parseVal fuel rest2 with
          | none => none
          | some (v, rest3) =>
            match skipWs rest3 with
            | ',' :: rest4 =>
              match parseObjItems fuel rest4 with
              | some (kvs, rest5) => some ((String.mk key, v) :: kvs, rest5)
              | none => none
            | '\x7d' :: rest4 => some ([(String.mk key, v)], rest4)
            | _ => none
        | _ => none
    | _ => none

end

/-- Model of `json.loads`: parse one value and require only trailing
whitespace after it; `none` models a raised `json.JSONDecodeError`. -/
def jsonLoads (s : String) : Option JVal :=
  match parseVal (2 * s.length + 4) s.toList with
  | some (v, rest) => if skipWs rest = [] then some v else none
  | none => none

/-! ## Python coercions used by the normalization step -/

/-- Truncation toward zero, as Python `int()` on a float (`tdiv` on the
reduced fraction truncates toward zero). -/
def ratTrunc (q : ℚ) : ℤ := q.num.tdiv q.den

/-- Python `int(s)` on a string: optional sign around decimal digits
(surrounding whitespace stripped); `none` models a raised `ValueError`. -/
def pyIntOfString (s : String) : Option ℤ :=
  match charTrim s.toList with
  | '+' :: ds => if ds ≠ [] ∧ ds.all Char.isDigit then some (digitsToNat ds : ℤ) else none
  | '-' :: ds => if ds ≠ [] ∧ ds.all Char.isDigit then some (-(digitsToNat ds : ℤ)) else none
  | ds => if ds ≠ [] ∧ ds.all Char.isDigit then some (digitsToNat ds : ℤ) else none

/-- Syntax of a Python float literal after the optional sign:
`digits [. digits] [exp]` or `. digits [exp]`. -/
def pyFloatBody (cs : List Char) : Option ℚ :=
  let (ints, rest) := takeDigits cs
  let withFrac : Option (ℚ × List Char) :=
    match rest with
    | '.' :: cs2 =>
      let (fds, rest') := takeDigits cs2
      if ints = [] ∧ fds = [] then none
      else some ((digitsToNat ints : ℚ) + (digitsToNat fds : ℚ) / ((10 : ℚ) ^ fds.length), rest')
    | _ => if ints = [] then none else some ((digitsToNat ints : ℚ), rest)
  match withFrac with
  | none => none
  | some (m, rest2) =>
    match rest2 with
    | [] => some m
    | e :: cs3 =>
      if e = 'e' ∨ e = 'E' then
        let (sgn, cs4) : ℤ × List Char :=
          match cs3 with
          | '+' :: cs' => (1, cs')
          | '-' :: cs' => (-1, cs')
          | cs' => (1, cs')
        let (eds, rest') := takeDigits cs4
        if eds = [] ∨ rest' ≠ [] then none
        else some (m * (10 : ℚ) ^ (sgn * (digitsToNat eds : ℤ)))
      else none

/-- Python `float(s)` on a string (whitespace stripped, optional sign);
the special `inf`/`nan` spellings are not modelled (no rational value).
`none` models a raised `ValueError`. -/
def pyFloatOfString (s : String) : Option ℚ :=
  match charTrim s.toList with
  | '+' :: cs => pyFloatBody cs
  | '-' :: cs => (pyFloatBody cs).map Neg.neg
  | cs => pyFloatBody cs

/-- Python `int(x)` on a parsed JSON value; `none` models a raised
`ValueError` or `TypeError` (both caught at rater.py:128). -/
def pyInt : JVal → Option ℤ
  | .jnum q => some (ratTrunc q)
  | .jstr s => pyIntOfString s
  | .jbool b => some (if b then 1 else 0)
  | _ => none

/-- Python `float(x)` on a parsed JSON value; `none` models a raised
`ValueError` or `TypeError` (uncaught at rater.py:132). -/
def pyFloat : JVal → Option ℚ
  | .jnum q => some q
  | .jstr s => pyFloatOfString s
  | .jbool b => some (if b then 1 else 0)
  | _ => none

/-! ## `rater.py` — `evaluate_response`, parse and normalization step

Everything after the API call (rater.py lines 78-134), taking the stripped
raw response text as input.  Exceptions that escape the function are modelled
with `Except`. -/

inductive PyExc : Type where
  | jsonDecodeError : PyExc
  | attributeError : PyExc
  | valueOrTypeError : PyExc
deriving DecidableEq, Repr

/-- The final normalized record returned by `evaluate_response`. -/
structure RaterResult : Type where
  score : JVal
  rationale : JVal
  confidence : ℚ
  unresolved : JVal
  clarifying_question : JVal

/-- Fence-stripping loop of rater.py lines 82-94: skip until the first fence
line, collect until the closing fence line. -/
def collectFenced : List String → Bool → List String
  | [], _ => []
  | l :: ls, inside =>
    if strStartsWith (strTrim l) "```" then
      if inside then [] else collectFenced ls true
    else if inside then l :: collectFenced ls inside
    else collectFenced ls inside

/-- rater.py lines 81-94: if the text starts with a code fence, keep only the
lines enclosed by the first fence pair. -/
def stripFence (raw : String) : String :=
  if strStartsWith raw "```" then
    joinNl (collectFenced (strSplitNl raw) false)
  else raw

/-- Python `s.find(c)` (as an `Option` instead of `-1`). -/
def charFind (cs : List Char) (c : Char) : Option ℕ :=
  cs.findIdx? (fun x => x == c)

/-- Python `s.rfind(c)` (as an `Option` instead of `-1`). -/
def charRFind (cs : List Char) (c : Char) : Option ℕ :=
  (cs.reverse.findIdx? (fun x => x == c)).map (fun i => cs.length - 1 - i)

/-- The conservative-intent fallback dict built at rater.py lines 105-111
when no brace-delimited substring exists (note: its score literal is `1`). -/
def fallbackDict (t : String) : List (String × JVal) :=
  [("score", .jnum 1),
   ("rationale", .jstr ("Failed to parse API response: " ++ strTake t 200)),
   ("confidence", .jnum 0),
   ("unresolved", .jbool true),
   ("clarifying_question", .jstr "Could you elaborate on your experience?")]

/-- rater.py lines 96-111: direct parse, then parse of the first-`\x7b` to
last-`\x7d` substring (a failure of that second parse is uncaught), then the
fallback dict. -/
def extractResult (t : String) : Except PyExc JVal :=
  match jsonLoads t with
  | some v => .ok v
  | none =>
    let cs := t.toList
    match charFind cs '\x7b', charRFind cs '\x7d' with
    | some start, some rb =>
      if rb + 1 > start then
        match jsonLoads (String.mk ((cs.drop start).take (rb + 1 - start))) with
        | some v => .ok v
        | none => .error .jsonDecodeError
      else .ok (.jobj (fallbackDict t))
    | _, _ => .ok (.jobj (fallbackDict t))

/-- Is the value the string `"?"` (the unresolved sentinel test at
rater.py:122)? -/
def isQMark : JVal → Bool
  | .jstr s => s == "?"
  | _ => false

/-- rater.py lines 113-132: the validation/normalization applied to the
extracted value (`setdefault`s, score clamping, confidence clamping).
`.error` models an exception escaping `evaluate_response`. -/
def normalizeParsed : Except PyExc JVal → Except PyExc RaterResult
  | .error e => .error e
  | .ok v =>
    match v with
    | .jobj kvs =>
      let score0 := (jget kvs "score").getD (.jstr "?")
      let rationale := (jget kvs "rationale").getD (.jstr "")
      let conf0 := (jget kvs "confidence").getD (.jnum (1 / 2))
      let unresolved0 := (jget kvs "unresolved").getD (.jbool false)
      let clq := (jget kvs "clarifying_question").getD .jnull
      let sres : JVal × JVal :=
        if isQMark score0 then (.jstr "?", .jbool true)
        else
          match pyInt score0 with
          | some n => (.jnum ((max 0 (min 2 n) : ℤ) : ℚ), unresolved0)
          | none => (.jstr "?", .jbool true)
      match pyFloat conf0 with
      | some q => .ok ⟨sres.1, rationale, max 0 (min 1 q), sres.2, clq⟩
      | none => .error .valueOrTypeError
    | _ => .error .attributeError

/-- rater.py lines 81-134: fence stripping, layered JSON extraction, and
normalization. -/
def evaluate_response_parse (raw : String) : Except PyExc RaterResult :=
  normalizeParsed (extractResult (stripFence raw))

/-! ## `exploration_engine.py` — `AudioRecorder._audio_callback`

One delivered block carries its int16 samples and the `time.time()` stamp at
which the callback processes it.  The Python test
`sqrt(mean(x**2)) < silence_threshold` is modelled by the equivalent
`mean(x**2) < silence_threshold^2` (both sides nonnegative; blocks have the
fixed nonempty size 1024). -/

structure AudioBlock : Type where
  t : ℚ
  samples : List ℤ
deriving DecidableEq, Repr

/-- Mean square amplitude of a block (the square of its RMS). -/
def rmsSq (b : AudioBlock) : ℚ :=
  (b.samples.map (fun x => (x : ℚ) ^ 2)).sum / (b.samples.length : ℚ)

structure RecState : Type where
  frames : List (List ℤ)
  is_recording : Bool
  silence_start : Option ℚ
  stopped_by_silence : Bool
deriving DecidableEq, Repr

structure RecConfig : Type where
  silence_threshold : ℚ
  silence_duration : ℚ
deriving DecidableEq, Repr

/-- `SILENCE_THRESHOLD_RMS = 300`, `SILENCE_DURATION_S = 3.0`. -/
def defaultRecConfig : RecConfig := ⟨300, 3⟩

/-- `AudioRecorder._audio_callback` (exploration_engine.py lines 61-78). -/
def audio_callback (cfg : RecConfig) (st : RecState) (b : AudioBlock) : RecState :=
  if !st.is_recording then st
  else
    let st1 := { st with frames := st.frames ++ [b.samples] }
    if rmsSq b < cfg.silence_threshold ^ 2 then
      match st1.silence_start with
      | none => { st1 with silence_start := some b.t }
      | some s =>
        if b.t - s ≥ cfg.silence_duration then
          { st1 with stopped_by_silence := true, is_recording := false }
        else st1
    else { st1 with silence_start := none }

/-- State right after `start_recording` (lines 82-85). -/
def startState : RecState := ⟨[], true, none, false⟩

/-- Deliver a sequence of blocks to the callback. -/
def runCallbacks (cfg : RecConfig) (bs : List AudioBlock) : RecState :=
  bs.foldl (audio_callback cfg) startState

/-! ## `gui.py` — `TranscriptionThread.run` (lines 369-374) -/

/-- Outcome of the `transcribe_audio` call: its returned text, or the message
of a raised transport/service/timeout exception. -/
inductive TranscriptionOutcome : Type where
  | ok : String → TranscriptionOutcome
  | err : String → TranscriptionOutcome
deriving DecidableEq, Repr

/-- The transcript text emitted by the thread's `finished` signal: the
exception is caught and a bracketed error marker is substituted. -/
def transcriptionThreadRun : TranscriptionOutcome → String
  | .ok t => t
  | .err e => "[Transcription error: " ++ e ++ "]"

/-! ## `main.py` — `save_session` under interruption (lines 48-53)

`open(path, "w")` truncates `state.json` in place and `json.dump` then
writes the serialized record into the same file handle.  If the process is
interrupted after `k` characters have reached the disk, the file holds the
`k`-character prefix of the new record (`k = 0` right after the
truncation); before the `open`, it holds the old record. -/

def save_session_midwrite (newRecord : String) (k : ℕ) : String :=
  newRecord.take k

/-- The on-disk contents reachable when `save_session` over `oldRecord` is
interrupted at an arbitrary point. -/
def SaveInterrupted (oldRecord newRecord content : String) : Prop :=
  content = oldRecord ∨ ∃ k, content = save_session_midwrite newRecord k

/-! ## `main.py` — session record and question bank -/

inductive Stage : Type where
  | INIT | SELF_REPORT | EXPLORATION | EVALUATION | REPORT | COMPLETE
deriving DecidableEq, Repr

/-- Position of a stage in the forward order of main.py's state machine. -/
def Stage.idx : Stage → ℕ
  | .INIT => 0
  | .SELF_REPORT => 1
  | .EXPLORATION => 2
  | .EVALUATION => 3
  | .REPORT => 4
  | .COMPLETE => 5

/-- The immediate successor in the fixed forward order. -/
def Stage.nextStage : Stage → Stage
  | .INIT => .SELF_REPORT
  | .SELF_REPORT => .EXPLORATION
  | .EXPLORATION => .EVALUATION
  | .EVALUATION => .REPORT
  | .REPORT => .COMPLETE
  | .COMPLETE => .COMPLETE

/-- A normalized criterion score: the `"?"` sentinel or an integer. -/
inductive Score : Type where
  | unknown : Score
  | val : ℤ → Score
deriving DecidableEq, Repr

/-- One stored exploration result (the dict built at main.py lines 183-186
and 216-221). -/
structure ExplorationResult : Type where
  score : Score
  rationale : String
  confidence : ℚ
  unresolved : Bool
  clarifying_question : Option String
  transcript : String
  clarification_transcript : Option String
deriving DecidableEq, Repr

/-- What one call of `evaluate_response` / `evaluate_with_clarification`
returns, before the caller attaches the transcripts. -/
structure RaterOutcome : Type where
  score : Score
  rationale : String
  confidence : ℚ
  unresolved : Bool
  clarifying_question : Option String
deriving DecidableEq, Repr

/-- Localized description / follow-up fields of one criterion in
`questions.json` (opaque for the claims; Python tests its dict truthiness). -/
abbrev CritData := List (String × String)

structure ScreeningItem : Type where
  disorder : String
  maps_to_criteria : List String
deriving DecidableEq, Repr

structure Disorder : Type where
  threshold : ℤ
  criteria : List (String × CritData)
deriving DecidableEq, Repr

structure Questions : Type where
  screening_items : List (String × ScreeningItem)
  disorders : List (String × Disorder)
deriving DecidableEq, Repr

structure Verdict : Type where
  criteria_met : ℕ
  threshold : ℤ
  diagnosis : Bool
  has_unresolved : Bool
deriving DecidableEq, Repr

structure Session : Type where
  session_id : String
  created_at : String
  language : String
  stage : Stage
  screening_responses : List (String × Bool)
  exploration_results : List (String × ExplorationResult)
  disorder_verdicts : List (String × Verdict)
deriving DecidableEq, Repr

/-- `create_session` (main.py lines 29-41). -/
def create_session (sid ts lang : String) : Session :=
  ⟨sid, ts, lang, .INIT, [], [], []⟩

/-- One entry of the flagged list: `{"criterion_id": ..., "disorder": ...,
**crit_data}`. -/
structure Flagged : Type where
  criterion_id : String
  disorder : String
  data : CritData
deriving DecidableEq, Repr

/-- Inner loop body of `get_flagged_criteria` (main.py lines 101-110): skip
a criterion id already flagged (first encounter wins) or whose data is
missing/falsy, otherwise append the flagged entry. -/
def flagCritStep (disorderKey : String) (disorder : Disorder)
    (acc2 : List Flagged) (cid : String) : List Flagged :=
  if acc2.any (fun f => f.criterion_id == cid) then acc2
  else
    match alookup disorder.criteria cid with
    | some cd => if cd.isEmpty then acc2 else acc2 ++ [⟨cid, disorderKey, cd⟩]
    | none => acc2

/-- Outer loop body of `get_flagged_criteria` (main.py lines 88-110):
process one screening response. -/
def flagItemStep (questions : Questions) (acc : List Flagged)
    (p : String × Bool) : List Flagged :=
  if !p.2 then acc
  else
    match alookup questions.screening_items p.1 with
    | none => acc
    | some item =>
      match alookup questions.disorders item.disorder with
      | none => acc
      | some disorder =>
        item.maps_to_criteria.foldl (flagCritStep item.disorder disorder) acc

/-- `get_flagged_criteria` (main.py lines 81-112): iterate the screening
responses; for a true answer resolve the item, its disorder and every mapped
criterion; deduplicate by criterion id, first encounter wins; skip criteria
whose data is missing or falsy. -/
def get_flagged_criteria (session : Session) (questions : Questions) :
    List Flagged :=
  session.screening_responses.foldl (flagItemStep questions) []

/-- `compute_disorder_verdicts` (main.py lines 115-143). -/
def compute_disorder_verdicts (session : Session) (questions : Questions) :
    List (String × Verdict) :=
  questions.disorders.foldl (fun verdicts p =>
    let counts := p.2.criteria.foldl (fun (st : ℕ × Bool) c =>
      match alookup session.exploration_results c.1 with
      | some r =>
        ((if r.score = .val 2 then st.1 + 1 else st.1),
         st.2 || (r.unresolved || r.score = .unknown))
      | none => st) (0, false)
    let explored := p.2.criteria.any (fun c => memKey session.exploration_results c.1)
    if explored then
      verdicts ++ [(p.1, ⟨counts.1, p.2.threshold,
        decide ((counts.1 : ℤ) ≥ p.2.threshold), counts.2⟩)]
    else verdicts) []

/-! ## `main.py` — the pipeline as an operational semantics

A process run (`main()` → `run_gui_pipeline` → `run_evaluation` →
`run_report`) is a function of the durable session at process start and of
the external inputs of that run (the screening answers, the transcripts the
GUI delivers, and the rater outcomes).  The run produces the sequence of
`save_session` events, plus an event marking the clarification selection
(main.py lines 189-197).  A crash truncates the event list at any point;
resumption restarts `main()` from the last saved record.  The GUI emits its
`finished` dict with one transcript per presented criterion, in
presentation order. -/

inductive Evt : Type where
  | save : Session → Evt
  | select : List (String × ExplorationResult) → Evt
deriving DecidableEq, Repr

/-- External inputs of one process run.  The rater oracles are arbitrary:
any normalized outcome may come back for any criterion and transcript. -/
structure Inputs : Type where
  responses : List (String × Bool)
  transcript1 : String → String
  rate1 : String → String → RaterOutcome
  transcript2 : String → String
  rate2 : String → String → RaterOutcome

/-- Attach the transcripts to a rater outcome (main.py lines 184-185 and
219-220). -/
def mkResult (o : RaterOutcome) (tr : String) (ct : Option String) :
    ExplorationResult :=
  ⟨o.score, o.rationale, o.confidence, o.unresolved, o.clarifying_question, tr, ct⟩

/-- One iteration of the exploration rating loop (main.py lines 178-187). -/
def rateStep (flagged : List Flagged) (rate1 : String → String → RaterOutcome)
    (acc : List Evt × Session) (p : String × String) : List Evt × Session :=
  match flagged.find? (fun f => f.criterion_id == p.1) with
  | none => acc
  | some _ =>
    let r := mkResult (rate1 p.1 p.2) p.2 none
    let s' := { acc.2 with exploration_results := dictSet acc.2.exploration_results p.1 r }
    (acc.1 ++ [.save s'], s')

/-- Python truthiness of the stored `clarification_transcript` (None and the
empty string are falsy). -/
def ctTruthy : Option String → Bool
  | none => false
  | some s => !(s == "")

/-- The clarification selection (main.py lines 189-197): results that are
unresolved and have no truthy clarification transcript, restricted to
criteria present in the flagged list. -/
def needsClar (flagged : List Flagged)
    (results : List (String × ExplorationResult)) :
    List (String × ExplorationResult) :=
  results.filterMap (fun p =>
    if p.2.unresolved && !ctTruthy p.2.clarification_transcript then
      match flagged.find? (fun f => f.criterion_id == p.1) with
      | some _ => some p
      | none => none
    else none)

/-- One iteration of the clarification re-rating loop (main.py lines
209-222). -/
def clarStep (flagged : List Flagged) (rate2 : String → String → RaterOutcome)
    (tr2 : String → String) (acc : List Evt × Session) (cid : String) :
    List Evt × Session :=
  let origTr := match alookup acc.2.exploration_results cid with
    | some r => r.transcript
    | none => ""
  match flagged.find? (fun f => f.criterion_id == cid) with
  | none => acc
  | some _ =>
    let r := mkResult (rate2 cid (tr2 cid)) origTr (some (tr2 cid))
    let s' := { acc.2 with exploration_results := dictSet acc.2.exploration_results cid r }
    (acc.1 ++ [.save s'], s')

/-- `remaining` at main.py:164 — flagged criteria with no stored result. -/
def remainingOf (q : Questions) (s : Session) : List Flagged :=
  (get_flagged_criteria s q).filter
    (fun f => !(memKey s.exploration_results f.criterion_id))

/-- The exploration rating loop (main.py lines 178-187) over the remaining
criteria, with the GUI delivering one transcript per presented criterion. -/
def ratePhase (q : Questions) (inp : Inputs) (s : Session) :
    List Evt × Session :=
  ((remainingOf q s).map (fun f => (f.criterion_id, inp.transcript1 f.criterion_id))).foldl
    (rateStep (get_flagged_criteria s q) inp.rate1) ([], s)

/-- The clarification selection at this point of the run. -/
def selPhase (q : Questions) (inp : Inputs) (s : Session) :
    List (String × ExplorationResult) :=
  needsClar (get_flagged_criteria s q) (ratePhase q inp s).2.exploration_results

/-- The clarification re-rating loop (main.py lines 208-222). -/
def clarPhase (q : Questions) (inp : Inputs) (s : Session) :
    List Evt × Session :=
  ((selPhase q inp s).map (fun p => p.1)).foldl
    (clarStep (get_flagged_criteria s q) inp.rate2 inp.transcript2)
    ([], (ratePhase q inp s).2)

/-- `start_exploration` together with `on_finished` (main.py lines 162-229):
rate the remaining flagged criteria, then either move to EVALUATION or run
the single clarification round and move to EVALUATION. -/
def explorationPart (q : Questions) (inp : Inputs) (s : Session) :
    List Evt × Session :=
  if (remainingOf q s).isEmpty then
    ([.save { s with stage := .EVALUATION }], { s with stage := .EVALUATION })
  else if (selPhase q inp s).isEmpty then
    ((ratePhase q inp s).1 ++ [.save { (ratePhase q inp s).2 with stage := .EVALUATION }],
     { (ratePhase q inp s).2 with stage := .EVALUATION })
  else
    ((ratePhase q inp s).1 ++ [.select (selPhase q inp s)] ++ (clarPhase q inp s).1 ++
       [.save { (clarPhase q inp s).2 with stage := .EVALUATION }],
     { (clarPhase q inp s).2 with stage := .EVALUATION })

/-- `on_self_report_finished` (main.py lines 234-242) followed by
`start_exploration`: record the answers and save at stage SELF_REPORT, save
again at stage EXPLORATION, then run the exploration phase. -/
def selfReportPart (q : Questions) (inp : Inputs) (s : Session) :
    List Evt × Session :=
  (.save { s with screening_responses := inp.responses, stage := .SELF_REPORT } ::
   .save { s with screening_responses := inp.responses, stage := .EXPLORATION } ::
   (explorationPart q inp
     { s with screening_responses := inp.responses, stage := .EXPLORATION }).1,
   (explorationPart q inp
     { s with screening_responses := inp.responses, stage := .EXPLORATION }).2)

/-- `run_gui_pipeline` (main.py lines 146-250): from INIT the self-report
phase runs first; resuming from SELF_REPORT or EXPLORATION goes straight to
`start_exploration`. -/
def guiPipeline (q : Questions) (inp : Inputs) (s : Session) :
    List Evt × Session :=
  if s.stage = .INIT then selfReportPart q inp s else explorationPart q inp s

/-- `run_evaluation` (main.py lines 253-258). -/
def run_evaluation_step (q : Questions) (s : Session) : Session :=
  { s with disorder_verdicts := compute_disorder_verdicts s q, stage := .REPORT }

/-- main.py line 304: the GUI phases run when the recorded stage is one of
INIT, SELF_REPORT, EXPLORATION. -/
def guiStep (q : Questions) (inp : Inputs) (s : Session) : List Evt × Session :=
  if s.stage = .INIT ∨ s.stage = .SELF_REPORT ∨ s.stage = .EXPLORATION then
    guiPipeline q inp s
  else ([], s)

/-- main.py lines 308-310: `run_evaluation` when the stage is EVALUATION. -/
def evalStep (q : Questions) (s1 : Session) : List Evt × Session :=
  if s1.stage = .EVALUATION then
    ([Evt.save (run_evaluation_step q s1)], run_evaluation_step q s1)
  else ([], s1)

/-- main.py lines 312-314: `run_report` when the stage is REPORT (the PDF
generation itself is an external collaborator). -/
def reportStep (s2 : Session) : List Evt × Session :=
  if s2.stage = .REPORT then
    ([Evt.save { s2 with stage := Stage.COMPLETE }], { s2 with stage := Stage.COMPLETE })
  else ([], s2)

/-- One uninterrupted process run of `main()` (main.py lines 276-318) from
the durable session `s`: the GUI phases, then evaluation, then the report
stage, each guarded by the recorded stage. -/
def processRun (q : Questions) (inp : Inputs) (s : Session) : List Evt :=
  (guiStep q inp s).1 ++ (evalStep q (guiStep q inp s).2).1 ++
    (reportStep (evalStep q (guiStep q inp s).2).2).1

/-- The durable record after a (possibly truncated) event list: the last
saved session, or the starting one if nothing was saved. -/
def lastSave (s : Session) (evts : List Evt) : Session :=
  evts.foldl (fun acc e => match e with | .save s' => s' | .select _ => acc) s

/-- `ReachLog q s log`: starting a process on durable record `s`, the event
sequence `log` can be produced by some chain of (possibly crashed and
resumed) runs against the fixed question bank `q`. -/
inductive ReachLog (q : Questions) : Session → List Evt → Prop where
  | nil : ∀ s, ReachLog q s []
  | step : ∀ (s : Session) (inp : Inputs) (n : ℕ) (rest : List Evt),
      ReachLog q (lastSave s ((processRun q inp s).take n)) rest →
      ReachLog q s ((processRun q inp s).take n ++ rest)

/-- The saved sessions of an event list. -/
def savesOf (evts : List Evt) : List Session :=
  evts.filterMap (fun e => match e with | .save s => some s | .select _ => none)

/-- The saved stage sequence of an event list. -/
def stagesOf (evts : List Evt) : List Stage :=
  (savesOf evts).map Session.stage

/-- The clarification selections of an event list. -/
def selectsOf (evts : List Evt) : List (List (String × ExplorationResult)) :=
  evts.filterMap (fun e => match e with | .save _ => none | .select l => some l)

/-- Collapse consecutive repeats (saves that do not change the stage). -/
def dedupConsec : List Stage → List Stage
  | [] => []
  | [a] => [a]
  | a :: b :: t => if a = b then dedupConsec (b :: t) else a :: dedupConsec (b :: t)

/-- The empty question bank (flags nothing). -/
def qEmpty : Questions := ⟨[], []⟩

/-- A run whose GUI answers nothing and whose rater always returns the same
resolved outcome. -/
def trivialInputs : Inputs :=
  ⟨[], fun _ => "", fun _ _ => ⟨.val 0, "", 0, false, none⟩,
   fun _ => "", fun _ _ => ⟨.val 0, "", 0, false, none⟩⟩

/-- A one-item, one-criterion bank for exercising the clarification pass. -/
def qbC8 : Questions :=
  ⟨[("s1", ⟨"D", ["c1"]⟩)], [("D", ⟨1, [("c1", [("d", "x")])]⟩)]⟩

/-- Inputs whose first rating leaves the criterion unresolved, forcing one
clarification selection. -/
def inpC8 : Inputs :=
  ⟨[("s1", true)], fun _ => "t1", fun _ _ => ⟨.unknown, "r", 0, true, some "q?"⟩,
   fun _ => "t2", fun _ _ => ⟨.val 2, "r2", 1, false, none⟩⟩

/-- Does the stripped text contain a `\x7b`-to-`\x7d` substring (Python
condition `start >= 0 and end > start` at rater.py:102)? -/
def hasBraceSubstring (t : String) : Bool :=
  match charFind t.toList '\x7b', charRFind t.toList '\x7d' with
  | some i, some j => j + 1 > i
  | _, _ => false

/-! ## Claim theorems -/

lemma extractResult_fallback (t : String) (h1 : jsonLoads t = none)
    (h2 : hasBraceSubstring t = false) :
    extractResult t = .ok (.jobj (fallbackDict t)) := by
  unfold extractResult
  rw [h1]
  unfold hasBraceSubstring at h2
  rcases hf : charFind t.toList '\x7b' with _ | i <;>
    rcases hr : charRFind t.toList '\x7d' with _ | j <;>
      simp only [hf, hr] at h2 ⊢
  simp only [decide_eq_false_iff_not] at h2
  simp [h2]

/-- C1 (counterexample): on the raw text `not json at all` the code returns
the fallback record with score `1` — an integer score, not the Unknown
sentinel `"?"` the claim requires. -/
theorem C1_fallback_score_counterexample :
    evaluate_response_parse "not json at all" =
      .ok ⟨.jnum 1, .jstr "Failed to parse API response: not json at all", 0,
        .jbool true, .jstr "Could you elaborate on your experience?"⟩ ∧
    JVal.jnum 1 ≠ JVal.jstr "?" := by
  refine ⟨rfl, fun h => JVal.noConfusion h⟩

/-- C1 (amended): for every raw text whose stripped form neither parses as
JSON nor contains a brace-delimited substring, `evaluate_response` returns
the fallback record with score `1` (not Unknown), confidence `0.0`,
`unresolved=true`, the generic clarifying question, and a rationale echoing
the first 200 characters of the unparseable text. -/
theorem C1_fallback_record (raw : String)
    (h1 : jsonLoads (stripFence raw) = none)
    (h2 : hasBraceSubstring (stripFence raw) = false) :
    evaluate_response_parse raw =
      .ok ⟨.jnum 1,
        .jstr ("Failed to parse API response: " ++ strTake (stripFence raw) 200),
        0, .jbool true, .jstr "Could you elaborate on your experience?"⟩ := by
  unfold evaluate_response_parse
  rw [extractResult_fallback _ h1 h2]
  rfl

/-- C1 (witness): the hypotheses of `C1_fallback_record` hold at the raw
text `not json at all`, and the theorem applies there. -/
theorem C1_fallback_record_witness :
    jsonLoads (stripFence "not json at all") = none ∧
    hasBraceSubstring (stripFence "not json at all") = false ∧
    evaluate_response_parse "not json at all" =
      .ok ⟨.jnum 1,
        .jstr ("Failed to parse API response: " ++
          strTake (stripFence "not json at all") 200),
        0, .jbool true, .jstr "Could you elaborate on your experience?"⟩ :=
  ⟨rfl, rfl, C1_fallback_record "not json at all" rfl rfl⟩

/-- C2 (counterexample): a failed transcription with message
`Request timed out.` delivers the bracketed error marker downstream, which
is not the empty transcript the claim requires. -/
theorem C2_error_marker_counterexample :
    transcriptionThreadRun (.err "Request timed out.") =
      "[Transcription error: Request timed out.]" ∧
    transcriptionThreadRun (.err "Request timed out.") ≠ "" := by
  refine ⟨rfl, by decide⟩

/-- C2 (amended): whenever the transcription call fails, the caller catches
the exception and emits exactly the bracketed marker
`[Transcription error: <message>]` as the transcript — a nonempty marker
string, never the empty text; the emission always happens, so the failure is
not fatal to the session. -/
theorem C2_error_marker (e : String) :
    transcriptionThreadRun (.err e) = "[Transcription error: " ++ e ++ "]" ∧
    transcriptionThreadRun (.err e) ≠ "" := by
  refine ⟨rfl, fun h => ?_⟩
  have hl := congrArg String.length h
  simp [transcriptionThreadRun, String.length_append] at hl
  exact absurd hl.2 (by decide)

/-- C3 (code bug): `save_session` truncates `state.json` in place before
writing; interrupting right after the truncation is a reachable mid-write
state whose content (the empty file) is neither the complete old record nor
the complete new one. -/
theorem C3_truncated_midwrite_state :
    save_session_midwrite "\x7b\"stage\": \"SELF_REPORT\"\x7d" 0 = "" ∧
    SaveInterrupted "\x7b\"stage\": \"INIT\"\x7d"
      "\x7b\"stage\": \"SELF_REPORT\"\x7d" "" ∧
    ("" : String) ≠ "\x7b\"stage\": \"INIT\"\x7d" ∧
    ("" : String) ≠ "\x7b\"stage\": \"SELF_REPORT\"\x7d" := by
  refine ⟨rfl, Or.inr ⟨0, rfl⟩, by decide, by decide⟩

/-- C4 (code bug): the parse of the brace-delimited substring at
rater.py:103 is not guarded, so the raw text `\x7bnot json\x7d` makes
`evaluate_response` raise `json.JSONDecodeError` instead of returning a
record; likewise `float()` on a null or non-numeric confidence at
rater.py:132 raises an uncaught `TypeError`/`ValueError`. -/
theorem C4_normalization_throws :
    evaluate_response_parse "\x7bnot json\x7d" = .error .jsonDecodeError ∧
    evaluate_response_parse "\x7b\"score\": 2, \"confidence\": null\x7d" =
      .error .valueOrTypeError ∧
    evaluate_response_parse "\x7b\"score\": 2, \"confidence\": \"high\"\x7d" =
      .error .valueOrTypeError := by
  refine ⟨rfl, rfl, rfl⟩

/-! ### C6 — silence-triggered auto-stop -/

/-- A block counts as silence: its RMS is below the threshold (compared via
the squares). -/
def Silent (cfg : RecConfig) (b : AudioBlock) : Prop :=
  rmsSq b < cfg.silence_threshold ^ 2

instance (cfg : RecConfig) (b : AudioBlock) : Decidable (Silent cfg b) := by
  unfold Silent; infer_instance

/-- The delivered sequence `p` ends after an uninterrupted silent window of
span at least the configured silence duration. -/
def SilWindow (cfg : RecConfig) (p : List AudioBlock) : Prop :=
  ∃ (i j : ℕ) (hi : i < p.length) (hj : j < p.length), i ≤ j ∧
    (p.get ⟨j, hj⟩).t - (p.get ⟨i, hi⟩).t ≥ cfg.silence_duration ∧
    ∀ (k : ℕ) (hk : k < p.length), i ≤ k → k ≤ j → Silent cfg (p.get ⟨k, hk⟩)

/-- Provenance of the silence timer: if it is set to `s`, then `s` is the
arrival time of some delivered block from which on every delivered block was
silent. -/
def SSProv (cfg : RecConfig) (p : List AudioBlock) (st : RecState) : Prop :=
  ∀ s, st.silence_start = some s →
    ∃ (i : ℕ) (hi : i < p.length), (p.get ⟨i, hi⟩).t = s ∧
      ∀ (k : ℕ) (hk : k < p.length), i ≤ k → Silent cfg (p.get ⟨k, hk⟩)

/-- Invariant of the callback state after the blocks `p` were delivered. -/
def CBInv (cfg : RecConfig) (p : List AudioBlock) (st : RecState) : Prop :=
  st.is_recording = !st.stopped_by_silence ∧
  (st.is_recording = true → SSProv cfg p st) ∧
  (st.stopped_by_silence = true → SilWindow cfg p)

lemma callback_not_recording (cfg : RecConfig) (st : RecState) (b : AudioBlock)
    (h : st.is_recording = false) : audio_callback cfg st b = st := by
  unfold audio_callback
  simp [h]

/-- The callback, written as a flat case split. -/
lemma audio_callback_cases (cfg : RecConfig) (st : RecState) (b : AudioBlock) :
    audio_callback cfg st b =
      if st.is_recording = false then st
      else if ¬ Silent cfg b then
        { st with frames := st.frames ++ [b.samples], silence_start := none }
      else
        match st.silence_start with
        | none =>
          { st with frames := st.frames ++ [b.samples], silence_start := some b.t }
        | some s =>
          if b.t - s ≥ cfg.silence_duration then
            { st with frames := st.frames ++ [b.samples],
                      is_recording := false, stopped_by_silence := true }
          else { st with frames := st.frames ++ [b.samples] } := by
  unfold audio_callback Silent
  cases hr : st.is_recording <;>
    by_cases h2 : rmsSq b < cfg.silence_threshold ^ 2 <;>
      cases hss : st.silence_start <;>
        simp [h2, hss]

lemma callback_stopped_stays (cfg : RecConfig) (st : RecState) (b : AudioBlock)
    (h : st.stopped_by_silence = true) :
    (audio_callback cfg st b).stopped_by_silence = true := by
  rw [audio_callback_cases]
  split
  · exact h
  · split
    · exact h
    · split
      · exact h
      · split
        · rfl
        · exact h

lemma audio_callback_reset (cfg : RecConfig) (st : RecState) (b : AudioBlock)
    (hrec : st.is_recording = true) (hloud : ¬ Silent cfg b) :
    audio_callback cfg st b =
      { st with frames := st.frames ++ [b.samples], silence_start := none } := by
  rw [audio_callback_cases, if_neg (by simp [hrec]), if_pos hloud]

lemma audio_callback_startTimer (cfg : RecConfig) (st : RecState)
    (b : AudioBlock) (hrec : st.is_recording = true) (hsil : Silent cfg b)
    (hss : st.silence_start = none) :
    audio_callback cfg st b =
      { st with frames := st.frames ++ [b.samples],
                silence_start := some b.t } := by
  rw [audio_callback_cases, if_neg (by simp [hrec]),
    if_neg (not_not_intro hsil), hss]

lemma audio_callback_stop (cfg : RecConfig) (st : RecState) (b : AudioBlock)
    (s : ℚ) (hrec : st.is_recording = true) (hsil : Silent cfg b)
    (hss : st.silence_start = some s)
    (hdur : b.t - s ≥ cfg.silence_duration) :
    audio_callback cfg st b =
      { st with frames := st.frames ++ [b.samples],
                is_recording := false, stopped_by_silence := true } := by
  rw [audio_callback_cases, if_neg (by simp [hrec]),
    if_neg (not_not_intro hsil), hss]
  simp [hdur]

lemma audio_callback_keep (cfg : RecConfig) (st : RecState) (b : AudioBlock)
    (s : ℚ) (hrec : st.is_recording = true) (hsil : Silent cfg b)
    (hss : st.silence_start = some s)
    (hdur : ¬ b.t - s ≥ cfg.silence_duration) :
    audio_callback cfg st b =
      { st with frames := st.frames ++ [b.samples] } := by
  rw [audio_callback_cases, if_neg (by simp [hrec]),
    if_neg (not_not_intro hsil), hss]
  simp [hdur]

lemma foldl_stopped_stays (cfg : RecConfig) (l : List AudioBlock)
    (st : RecState) (h : st.stopped_by_silence = true) :
    (l.foldl (audio_callback cfg) st).stopped_by_silence = true := by
  induction l generalizing st with
  | nil => exact h
  | cons b l ih => exact ih _ (callback_stopped_stays cfg st b h)

lemma silWindow_append (cfg : RecConfig) (p : List AudioBlock) (b : AudioBlock)
    (h : SilWindow cfg p) : SilWindow cfg (p ++ [b]) := by
  obtain ⟨i, j, hi, hj, hij, hspan, hall⟩ := h
  have hi' : i < (p ++ [b]).length := by simp; omega
  have hj' : j < (p ++ [b]).length := by simp; omega
  refine ⟨i, j, hi', hj', hij, ?_, ?_⟩
  · rw [List.get_append _ hi, List.get_append _ hj]
    exact hspan
  · intro k hk hik hkj
    have hkp : k < p.length := lt_of_le_of_lt hkj hj
    rw [List.get_append _ hkp]
    exact hall k hkp hik hkj

lemma ssprov_append_silent (cfg : RecConfig) (p : List AudioBlock)
    (b : AudioBlock) (st : RecState) (hb : Silent cfg b)
    (h : SSProv cfg p st) (st' : RecState)
    (hss : st'.silence_start = st.silence_start) :
    SSProv cfg (p ++ [b]) st' := by
  intro s hs
  rw [hss] at hs
  obtain ⟨i, hi, hit, hall⟩ := h s hs
  have hi' : i < (p ++ [b]).length := by simp; omega
  refine ⟨i, hi', ?_, ?_⟩
  · rw [List.get_append _ hi]; exact hit
  · intro k hk hik
    have hk' : k < p.length + 1 := by simpa using hk
    rcases Nat.lt_or_ge k p.length with hlt | hge
    · rw [List.get_append _ hlt]
      exact hall k hlt hik
    · have hkeq : k = p.length := by omega
      subst hkeq
      have : (p ++ [b]).get ⟨p.length, hk⟩ = b := List.get_of_append rfl rfl
      rw [this]
      exact hb

lemma cbinv_start (cfg : RecConfig) : CBInv cfg [] startState := by
  refine ⟨rfl, ?_, ?_⟩
  · intro _ s hs
    simp [startState] at hs
  · intro h
    simp [startState] at h

lemma cbinv_step (cfg : RecConfig) (p : List AudioBlock) (st : RecState)
    (b : AudioBlock) (h : CBInv cfg p st) :
    CBInv cfg (p ++ [b]) (audio_callback cfg st b) := by
  obtain ⟨hgood, hprov, hstop⟩ := h
  by_cases hrec : st.is_recording = true
  case neg =>
    have hrec' : st.is_recording = false := by
      cases hr : st.is_recording
      · rfl
      · exact absurd hr hrec
    rw [callback_not_recording cfg st b hrec']
    have hsb : st.stopped_by_silence = true := by
      rw [hrec'] at hgood
      cases hsb : st.stopped_by_silence
      · rw [hsb] at hgood; simp at hgood
      · rfl
    refine ⟨hgood, ?_, fun _ => silWindow_append cfg p b (hstop hsb)⟩
    intro hr'
    exact absurd hr' (by rw [hrec']; simp)
  case pos =>
    have hsb : st.stopped_by_silence = false := by
      rw [hrec] at hgood
      cases hsb : st.stopped_by_silence
      · rfl
      · rw [hsb] at hgood; simp at hgood
    by_cases hsil : Silent cfg b
    case neg =>
      -- loud block: the timer is reset to none
      have : audio_callback cfg st b =
          { st with frames := st.frames ++ [b.samples], silence_start := none } := by
        rw [audio_callback_cases, if_neg (by simp [hrec]), if_pos hsil]
      rw [this]
      refine ⟨by simp [hgood], ?_, ?_⟩
      · intro _ s hs
        simp at hs
      · intro hc
        simp at hc
        exact absurd hc (by rw [hsb]; simp)
    case pos =>
      cases hss : st.silence_start with
      | none =>
        -- first silent block: start the timer at this block's time
        have : audio_callback cfg st b =
            { st with frames := st.frames ++ [b.samples],
                      silence_start := some b.t } := by
          rw [audio_callback_cases, if_neg (by simp [hrec]),
            if_neg (not_not_intro hsil), hss]
        rw [this]
        refine ⟨by simp [hgood], ?_, ?_⟩
        · intro _ s hs
          simp at hs
          subst hs
          have hlen : p.length < (p ++ [b]).length := by simp
          refine ⟨p.length, hlen, ?_, ?_⟩
          · rw [List.get_of_append rfl rfl]
          · intro k hk hik
            have hk' : k < p.length + 1 := by simpa using hk
            have hkeq : k = p.length := by omega
            subst hkeq
            rw [List.get_of_append rfl rfl]
            exact hsil
        · intro hc
          simp at hc
          exact absurd hc (by rw [hsb]; simp)
      | some s =>
        by_cases hdur : b.t - s ≥ cfg.silence_duration
        case pos =>
          -- timer exceeded: silence-triggered stop
          have heq : audio_callback cfg st b =
              { st with frames := st.frames ++ [b.samples],
                        stopped_by_silence := true, is_recording := false } := by
            rw [audio_callback_cases, if_neg (by simp [hrec]),
              if_neg (not_not_intro hsil), hss]
            simp [hdur]
          rw [heq]
          refine ⟨by simp, ?_, ?_⟩
          · intro hr'
            simp at hr'
          · intro _
            obtain ⟨i, hi, hit, hall⟩ := hprov hrec s hss
            have hi' : i < (p ++ [b]).length := by simp; omega
            have hj' : p.length < (p ++ [b]).length := by simp
            refine ⟨i, p.length, hi', hj', by omega, ?_, ?_⟩
            · rw [List.get_of_append rfl rfl, List.get_append _ hi, hit]
              exact hdur
            · intro k hk hik hkj
              rcases Nat.lt_or_ge k p.length with hlt | hge
              · rw [List.get_append _ hlt]
                exact hall k hlt hik
              · have hkeq : k = p.length := by omega
                subst hkeq
                rw [List.get_of_append rfl rfl]
                exact hsil
        case neg =>
          -- timer running but not yet exceeded: state keeps the timer
          have heq : audio_callback cfg st b =
              { st with frames := st.frames ++ [b.samples] } := by
            rw [audio_callback_cases, if_neg (by simp [hrec]),
              if_neg (not_not_intro hsil), hss]
            simp [hdur]
          rw [heq]
          refine ⟨by simp [hgood], ?_, ?_⟩
          · intro _
            exact ssprov_append_silent cfg p b st hsil (hprov hrec) _ rfl
          · intro hc
            simp at hc
            exact absurd hc (by rw [hsb]; simp)

/-- The invariant holds after any delivered sequence. -/
lemma cbinv_fold (cfg : RecConfig) (l : List AudioBlock) :
    ∀ (p : List AudioBlock) (st : RecState), CBInv cfg p st →
      CBInv cfg (p ++ l) (l.foldl (audio_callback cfg) st) := by
  induction l with
  | nil => intro p st h; simpa using h
  | cons b l ih =>
    intro p st h
    have h1 := cbinv_step cfg p st b h
    have h2 := ih (p ++ [b]) (audio_callback cfg st b) h1
    simpa using h2

lemma cbinv_run (cfg : RecConfig) (bs : List AudioBlock) :
    CBInv cfg bs (runCallbacks cfg bs) := by
  have := cbinv_fold cfg bs [] startState (cbinv_start cfg)
  simpa [runCallbacks] using this

/-- Callback state after the first `m` delivered blocks. -/
def runPre (cfg : RecConfig) (bs : List AudioBlock) (m : ℕ) : RecState :=
  (bs.take m).foldl (audio_callback cfg) startState

lemma runPre_succ (cfg : RecConfig) (bs : List AudioBlock) (m : ℕ)
    (h : m < bs.length) :
    runPre cfg bs (m + 1) = audio_callback cfg (runPre cfg bs m) (bs.get ⟨m, h⟩) := by
  unfold runPre
  have ht : bs.take (m + 1) = bs.take m ++ [bs.get ⟨m, h⟩] := by
    simp [List.get_eq_getElem]
  rw [ht, List.foldl_append]
  rfl

lemma cbinv_runPre (cfg : RecConfig) (bs : List AudioBlock) (m : ℕ) :
    CBInv cfg (bs.take m) (runPre cfg bs m) := by
  have := cbinv_fold cfg (bs.take m) [] startState (cbinv_start cfg)
  simpa [runPre] using this

lemma runPre_silence_start_le (cfg : RecConfig) (bs : List AudioBlock)
    (hmono : bs.Pairwise (fun a b => a.t < b.t)) (m : ℕ) (hm : m < bs.length)
    (s : ℚ) (hrec : (runPre cfg bs m).is_recording = true)
    (hss : (runPre cfg bs m).silence_start = some s) :
    s ≤ (bs.get ⟨m, hm⟩).t := by
  obtain ⟨_, hprov, _⟩ := cbinv_runPre cfg bs m
  obtain ⟨i0, hi0, hit, _⟩ := hprov hrec s hss
  have hi0m : i0 < m := by
    have := hi0
    simp only [List.length_take] at this
    omega
  have hi0len : i0 < bs.length := lt_trans hi0m hm
  have hget : (bs.take m).get ⟨i0, hi0⟩ = bs.get ⟨i0, hi0len⟩ := by
    simp [List.get_eq_getElem, List.getElem_take]
  have hlt : (bs.get ⟨i0, hi0len⟩).t < (bs.get ⟨m, hm⟩).t := by
    rw [List.pairwise_iff_get] at hmono
    exact hmono ⟨i0, hi0len⟩ ⟨m, hm⟩ hi0m
  rw [← hit, hget]
  exact le_of_lt hlt

lemma suff_aux (cfg : RecConfig) (bs : List AudioBlock)
    (hmono : bs.Pairwise (fun a b => a.t < b.t))
    (i j : ℕ) (hi : i < bs.length) (hj : j < bs.length) (hij : i < j)
    (hsilent : ∀ (k : ℕ) (hk : k < bs.length), i ≤ k → k ≤ j →
      Silent cfg (bs.get ⟨k, hk⟩)) :
    ∀ d, i + d < j →
      (runPre cfg bs (i + d + 1)).stopped_by_silence = true ∨
      ((runPre cfg bs (i + d + 1)).is_recording = true ∧
       ∃ s, s ≤ (bs.get ⟨i, hi⟩).t ∧
         (runPre cfg bs (i + d + 1)).silence_start = some s) := by
  intro d
  induction d with
  | zero =>
    intro _
    have hstep := runPre_succ cfg bs i hi
    set st := runPre cfg bs i with hst
    obtain ⟨hgood, hprov, _⟩ := cbinv_runPre cfg bs i
    cases hsb : st.stopped_by_silence
    case true =>
      left
      rw [hstep]
      exact callback_stopped_stays cfg st _ hsb
    case false =>
      have hrec : st.is_recording = true := by rw [hgood, hsb]; rfl
      have hbsil : Silent cfg (bs.get ⟨i, hi⟩) :=
        hsilent i hi (le_refl i) (le_of_lt hij)
      cases hss : st.silence_start with
      | none =>
        right
        rw [hstep, audio_callback_startTimer cfg st _ hrec hbsil hss]
        exact ⟨hrec, (bs.get ⟨i, hi⟩).t, le_refl _, rfl⟩
      | some s =>
        have hsle : s ≤ (bs.get ⟨i, hi⟩).t :=
          runPre_silence_start_le cfg bs hmono i hi s hrec hss
        by_cases hdur : (bs.get ⟨i, hi⟩).t - s ≥ cfg.silence_duration
        · left
          rw [hstep, audio_callback_stop cfg st _ s hrec hbsil hss hdur]
        · right
          rw [hstep, audio_callback_keep cfg st _ s hrec hbsil hss hdur]
          exact ⟨hrec, s, hsle, hss⟩
  | succ d ih =>
    intro hd
    have hd' : i + d < j := by omega
    have hlen : i + d + 1 < bs.length := by omega
    have hstep := runPre_succ cfg bs (i + d + 1) hlen
    have harith : i + (d + 1) + 1 = i + d + 1 + 1 := by omega
    rw [harith, hstep]
    set st := runPre cfg bs (i + d + 1) with hst
    rcases ih hd' with hstop | ⟨hrec, s, hsle, hss⟩
    · left
      exact callback_stopped_stays cfg st _ hstop
    · have hbsil : Silent cfg (bs.get ⟨i + d + 1, hlen⟩) :=
        hsilent (i + d + 1) hlen (by omega) (by omega)
      by_cases hdur : (bs.get ⟨i + d + 1, hlen⟩).t - s ≥ cfg.silence_duration
      · left
        rw [audio_callback_stop cfg st _ s hrec hbsil hss hdur]
      · right
        rw [audio_callback_keep cfg st _ s hrec hbsil hss hdur]
        exact ⟨hrec, s, hsle, hss⟩

lemma suff_stop (cfg : RecConfig) (bs : List AudioBlock)
    (hdpos : 0 < cfg.silence_duration)
    (hmono : bs.Pairwise (fun a b => a.t < b.t))
    (i j : ℕ) (hi : i < bs.length) (hj : j < bs.length) (hij : i ≤ j)
    (hspan : (bs.get ⟨j, hj⟩).t - (bs.get ⟨i, hi⟩).t ≥ cfg.silence_duration)
    (hsilent : ∀ (k : ℕ) (hk : k < bs.length), i ≤ k → k ≤ j →
      Silent cfg (bs.get ⟨k, hk⟩)) :
    (runCallbacks cfg bs).stopped_by_silence = true := by
  have hilt : i < j := by
    rcases Nat.lt_or_ge i j with h | h
    · exact h
    · have : i = j := by omega
      subst this
      simp at hspan
      exact absurd hspan (by simp; exact hdpos)
  -- state after processing block j
  have hstopj : (runPre cfg bs (j + 1)).stopped_by_silence = true := by
    have harith : i + (j - i - 1) + 1 = j := by omega
    have haux := suff_aux cfg bs hmono i j hi hj hilt hsilent (j - i - 1) (by omega)
    rw [harith] at haux
    have hstep := runPre_succ cfg bs j hj
    rcases haux with hstop | ⟨hrec, s, hsle, hss⟩
    · rw [hstep]
      exact callback_stopped_stays cfg _ _ hstop
    · have hbsil : Silent cfg (bs.get ⟨j, hj⟩) :=
        hsilent j hj (le_of_lt hilt) (le_refl j)
      have hdur : (bs.get ⟨j, hj⟩).t - s ≥ cfg.silence_duration := by
        have : (bs.get ⟨j, hj⟩).t - s ≥ (bs.get ⟨j, hj⟩).t - (bs.get ⟨i, hi⟩).t := by
          linarith
        linarith
      rw [hstep, audio_callback_stop cfg _ _ s hrec hbsil hss hdur]
  -- propagate to the end of the stream
  have hsplit : bs = bs.take (j + 1) ++ bs.drop (j + 1) := (List.take_append_drop _ _).symm
  unfold runCallbacks
  rw [hsplit, List.foldl_append]
  exact foldl_stopped_stays cfg _ _ hstopj

/-- C6: over any delivered block sequence with strictly increasing callback
times, (1) an uninterrupted silent window spanning at least 3.0 seconds
stops the recording with `stopped_by_silence = true`; (2) any block with RMS
at or above the threshold resets the silence timer to not-started; (3) a
silence-triggered stop only happens after a window of blocks, all below the
threshold, spanning at least 3.0 seconds — so a rise above threshold before
the 3-second mark prevents the stop at the original mark. -/
theorem C6_silence_autostop (bs : List AudioBlock)
    (hmono : bs.Pairwise (fun a b => a.t < b.t)) :
    ((∀ (i j : ℕ) (hi : i < bs.length) (hj : j < bs.length),
        i ≤ j →
        (bs.get ⟨j, hj⟩).t - (bs.get ⟨i, hi⟩).t ≥ 3 →
        (∀ (k : ℕ) (hk : k < bs.length), i ≤ k → k ≤ j →
          rmsSq (bs.get ⟨k, hk⟩) < 300 ^ 2) →
        (runCallbacks defaultRecConfig bs).stopped_by_silence = true) ∧
     (∀ (st : RecState) (b : AudioBlock), st.is_recording = true →
        ¬ rmsSq b < 300 ^ 2 →
        (audio_callback defaultRecConfig st b).silence_start = none) ∧
     ((runCallbacks defaultRecConfig bs).stopped_by_silence = true →
        ∃ (i j : ℕ) (hi : i < bs.length) (hj : j < bs.length),
          i ≤ j ∧ (bs.get ⟨j, hj⟩).t - (bs.get ⟨i, hi⟩).t ≥ 3 ∧
          ∀ (k : ℕ) (hk : k < bs.length), i ≤ k → k ≤ j →
            rmsSq (bs.get ⟨k, hk⟩) < 300 ^ 2)) := by
  refine ⟨?_, ?_, ?_⟩
  · intro i j hi hj hij hspan hsil
    exact suff_stop defaultRecConfig bs (by norm_num [defaultRecConfig]) hmono
      i j hi hj hij hspan (fun k hk h1 h2 => hsil k hk h1 h2)
  · intro st b hrec hloud
    rw [audio_callback_reset defaultRecConfig st b hrec hloud]
  · intro hstop
    obtain ⟨_, _, hwin⟩ := cbinv_run defaultRecConfig bs
    obtain ⟨i, j, hi, hj, hij, hspan, hall⟩ := hwin hstop
    exact ⟨i, j, hi, hj, hij, hspan, fun k hk h1 h2 => hall k hk h1 h2⟩

/-- C6 (witness): three all-zero blocks at times 0, 2 and 4 seconds satisfy
the hypotheses, and the recorder stops by silence. -/
theorem C6_silence_autostop_witness :
    (runCallbacks defaultRecConfig
      [⟨0, [0, 0]⟩, ⟨2, [0, 0]⟩, ⟨4, [0, 0]⟩]).stopped_by_silence = true :=
  (C6_silence_autostop [⟨0, [0, 0]⟩, ⟨2, [0, 0]⟩, ⟨4, [0, 0]⟩]
      (by decide)).1
    0 2 (by norm_num) (by norm_num) (by norm_num)
    (by norm_num [List.get])
    (by
      intro k hk h1 h2
      interval_cases k <;> norm_num [List.get, rmsSq])

/-! ### C7 / C10 — flagged-criteria derivation -/

/-- The criterion `c` is eligible for flagging through the screening
response `p`: the answer is true, the item and its disorder exist, the item
maps to `c`, and the disorder carries truthy data for `c`. -/
def Elig (q : Questions) (p : String × Bool) (c : String) : Prop :=
  p.2 = true ∧ ∃ item, alookup q.screening_items p.1 = some item ∧
    ∃ d, alookup q.disorders item.disorder = some d ∧
      c ∈ item.maps_to_criteria ∧
      ∃ cd, alookup d.criteria c = some cd ∧ cd ≠ []

lemma any_id_iff (acc : List Flagged) (c : String) :
    acc.any (fun f => f.criterion_id == c) = true ↔
      ∃ f ∈ acc, f.criterion_id = c := by
  simp [List.any_eq_true]

lemma mem_flagCritStep_iff (dk : String) (d : Disorder) (acc2 : List Flagged)
    (cid c : String) :
    (∃ f ∈ flagCritStep dk d acc2 cid, f.criterion_id = c) ↔
      (∃ f ∈ acc2, f.criterion_id = c) ∨
      (c = cid ∧ ∃ cd, alookup d.criteria cid = some cd ∧ cd ≠ []) := by
  unfold flagCritStep
  by_cases hmem : acc2.any (fun f => f.criterion_id == cid) = true
  · rw [if_pos hmem]
    constructor
    · exact Or.inl
    · rintro (h | ⟨rfl, _⟩)
      · exact h
      · exact (any_id_iff acc2 c).mp hmem
  · rw [if_neg hmem]
    cases hcd : alookup d.criteria cid with
    | none => simp [hcd]
    | some cd =>
      dsimp only
      by_cases he : cd.isEmpty
      · have : cd = [] := by simpa [List.isEmpty_iff] using he
        simp [hcd, he, this]
      · have hne : cd ≠ [] := by simpa [List.isEmpty_iff] using he
        rw [if_neg he]
        constructor
        · rintro ⟨f, hf, hfc⟩
          rcases List.mem_append.mp hf with hf | hf
          · exact Or.inl ⟨f, hf, hfc⟩
          · have hfe : f = ⟨cid, dk, cd⟩ := by simpa using hf
            subst hfe
            exact Or.inr ⟨hfc.symm, cd, rfl, hne⟩
        · rintro (⟨f, hf, hfc⟩ | ⟨heq, _, _, _⟩)
          · exact ⟨f, List.mem_append.mpr (Or.inl hf), hfc⟩
          · subst heq
            exact ⟨⟨c, dk, cd⟩, List.mem_append.mpr (Or.inr (by simp)), rfl⟩

lemma mem_innerFold_iff (dk : String) (d : Disorder) (maps : List String)
    (acc2 : List Flagged) (c : String) :
    (∃ f ∈ maps.foldl (flagCritStep dk d) acc2, f.criterion_id = c) ↔
      (∃ f ∈ acc2, f.criterion_id = c) ∨
      (c ∈ maps ∧ ∃ cd, alookup d.criteria c = some cd ∧ cd ≠ []) := by
  induction maps generalizing acc2 with
  | nil => simp
  | cons cid maps ih =>
    rw [List.foldl_cons, ih, mem_flagCritStep_iff]
    constructor
    · rintro ((h | ⟨rfl, h⟩) | ⟨hm, h⟩)
      · exact Or.inl h
      · exact Or.inr ⟨List.mem_cons_self _ _, h⟩
      · exact Or.inr ⟨List.mem_cons_of_mem _ hm, h⟩
    · rintro (h | ⟨hm, h⟩)
      · exact Or.inl (Or.inl h)
      · rcases List.mem_cons.mp hm with rfl | hm
        · exact Or.inl (Or.inr ⟨rfl, h⟩)
        · exact Or.inr ⟨hm, h⟩

lemma mem_flagItemStep_iff (q : Questions) (acc : List Flagged)
    (p : String × Bool) (c : String) :
    (∃ f ∈ flagItemStep q acc p, f.criterion_id = c) ↔
      (∃ f ∈ acc, f.criterion_id = c) ∨ Elig q p c := by
  unfold flagItemStep Elig
  cases hb : p.2
  · simp [hb]
  · simp only [hb, Bool.not_true, Bool.false_eq_true, if_false]
    cases hitem : alookup q.screening_items p.1 with
    | none => simp [hitem]
    | some item =>
      dsimp only
      cases hd : alookup q.disorders item.disorder with
      | none => simp [hitem, hd]
      | some d =>
        dsimp only
        rw [mem_innerFold_iff]
        simp [hitem, hd]

lemma mem_outerFold_iff (q : Questions) (resp : List (String × Bool))
    (acc : List Flagged) (c : String) :
    (∃ f ∈ resp.foldl (flagItemStep q) acc, f.criterion_id = c) ↔
      (∃ f ∈ acc, f.criterion_id = c) ∨ ∃ p ∈ resp, Elig q p c := by
  induction resp generalizing acc with
  | nil => simp
  | cons p resp ih =>
    rw [List.foldl_cons, ih, mem_flagItemStep_iff]
    constructor
    · rintro ((h | h) | ⟨p', hp', h⟩)
      · exact Or.inl h
      · exact Or.inr ⟨p, List.mem_cons_self _ _, h⟩
      · exact Or.inr ⟨p', List.mem_cons_of_mem _ hp', h⟩
    · rintro (h | ⟨p', hp', h⟩)
      · exact Or.inl (Or.inl h)
      · rcases List.mem_cons.mp hp' with rfl | hp'
        · exact Or.inl (Or.inr h)
        · exact Or.inr ⟨p', hp', h⟩

/-- Membership characterization of the flagged list. -/
lemma mem_flagged_iff (s : Session) (q : Questions) (c : String) :
    (∃ f ∈ get_flagged_criteria s q, f.criterion_id = c) ↔
      ∃ p ∈ s.screening_responses, Elig q p c := by
  unfold get_flagged_criteria
  rw [mem_outerFold_iff]
  simp

lemma idsNodup_flagCritStep (dk : String) (d : Disorder)
    (acc2 : List Flagged) (cid : String)
    (h : acc2.Pairwise (fun a b => a.criterion_id ≠ b.criterion_id)) :
    (flagCritStep dk d acc2 cid).Pairwise
      (fun a b => a.criterion_id ≠ b.criterion_id) := by
  unfold flagCritStep
  by_cases hmem : acc2.any (fun f => f.criterion_id == cid) = true
  · rwa [if_pos hmem]
  · rw [if_neg hmem]
    cases hcd : alookup d.criteria cid with
    | none => exact h
    | some cd =>
      dsimp only
      by_cases he : cd.isEmpty
      · rwa [if_pos he]
      · rw [if_neg he]
        rw [List.pairwise_append]
        refine ⟨h, by simp, ?_⟩
        intro a ha b hb
        simp at hb
        subst hb
        intro hc
        exact hmem ((any_id_iff acc2 cid).mpr ⟨a, ha, hc⟩)

lemma idsNodup_innerFold (dk : String) (d : Disorder) (maps : List String)
    (acc2 : List Flagged)
    (h : acc2.Pairwise (fun a b => a.criterion_id ≠ b.criterion_id)) :
    (maps.foldl (flagCritStep dk d) acc2).Pairwise
      (fun a b => a.criterion_id ≠ b.criterion_id) := by
  induction maps generalizing acc2 with
  | nil => exact h
  | cons cid maps ih => exact ih _ (idsNodup_flagCritStep dk d acc2 cid h)

lemma idsNodup_flagItemStep (q : Questions) (acc : List Flagged)
    (p : String × Bool)
    (h : acc.Pairwise (fun a b => a.criterion_id ≠ b.criterion_id)) :
    (flagItemStep q acc p).Pairwise
      (fun a b => a.criterion_id ≠ b.criterion_id) := by
  unfold flagItemStep
  cases hb : p.2
  · simpa using h
  · simp only [Bool.not_true, Bool.false_eq_true, if_false]
    cases alookup q.screening_items p.1 with
    | none => exact h
    | some item =>
      dsimp only
      cases alookup q.disorders item.disorder with
      | none => exact h
      | some d =>
        dsimp only
        exact idsNodup_innerFold _ _ _ _ h

/-- The flagged list never repeats a criterion id. -/
lemma idsNodup_flagged (s : Session) (q : Questions) :
    (get_flagged_criteria s q).Pairwise
      (fun a b => a.criterion_id ≠ b.criterion_id) := by
  unfold get_flagged_criteria
  generalize s.screening_responses = resp
  have h0 : ([] : List Flagged).Pairwise
      (fun a b => a.criterion_id ≠ b.criterion_id) := by simp
  generalize hacc : ([] : List Flagged) = acc at h0 ⊢
  clear hacc
  induction resp generalizing acc with
  | nil => exact h0
  | cons p resp ih => exact ih _ (idsNodup_flagItemStep q acc p h0)

lemma innerFold_noop (dk : String) (d : Disorder) (maps : List String)
    (acc2 : List Flagged)
    (h : ∀ cid ∈ maps, ∃ f ∈ acc2, f.criterion_id = cid) :
    maps.foldl (flagCritStep dk d) acc2 = acc2 := by
  induction maps with
  | nil => rfl
  | cons cid maps ih =>
    have hstep : flagCritStep dk d acc2 cid = acc2 := by
      unfold flagCritStep
      rw [if_pos ((any_id_iff acc2 cid).mpr (h cid (List.mem_cons_self _ _)))]
    rw [List.foldl_cons, hstep]
    exact ih (fun c hc => h c (List.mem_cons_of_mem _ hc))

/-- C7 (counterexample): the same answer set in two iteration orders gives
two different flagged lists (the claim says the result is the same
regardless of iteration order). -/
theorem C7_order_counterexample :
    ({ create_session "sid" "t0" "de" with
        screening_responses := [("s1", true), ("s2", true)] } :
          Session).screening_responses.Perm
      ({ create_session "sid" "t0" "de" with
          screening_responses := [("s2", true), ("s1", true)] } :
            Session).screening_responses ∧
    get_flagged_criteria
        { create_session "sid" "t0" "de" with
            screening_responses := [("s1", true), ("s2", true)] }
        ⟨[("s1", ⟨"D", ["c1"]⟩), ("s2", ⟨"D", ["c2"]⟩)],
         [("D", ⟨1, [("c1", [("d", "x")]), ("c2", [("d", "y")])]⟩)]⟩ ≠
      get_flagged_criteria
        { create_session "sid" "t0" "de" with
            screening_responses := [("s2", true), ("s1", true)] }
        ⟨[("s1", ⟨"D", ["c1"]⟩), ("s2", ⟨"D", ["c2"]⟩)],
         [("D", ⟨1, [("c1", [("d", "x")]), ("c2", [("d", "y")])]⟩)]⟩ := by
  constructor
  · exact List.Perm.swap _ _ _
  · decide

/-- C7 (amended): flagging is a pure function of the answer set (calling it
twice yields the same list); permuting the screening answers preserves which
criterion ids are flagged (the list order itself follows the iteration
order); each criterion id appears at most once; and a later true-answered
item whose mapped criteria are all already flagged leaves the result
unchanged (first encounter wins). -/
theorem C7_flagging_properties (q : Questions) (s1 s2 : Session)
    (hperm : s1.screening_responses.Perm s2.screening_responses) :
    (get_flagged_criteria s1 q = get_flagged_criteria s1 q) ∧
    (∀ c, (∃ f ∈ get_flagged_criteria s1 q, f.criterion_id = c) ↔
          (∃ f ∈ get_flagged_criteria s2 q, f.criterion_id = c)) ∧
    (get_flagged_criteria s1 q).Pairwise
      (fun a b => a.criterion_id ≠ b.criterion_id) ∧
    (∀ iid item, alookup q.screening_items iid = some item →
      (∀ cid ∈ item.maps_to_criteria,
        ∃ f ∈ get_flagged_criteria s1 q, f.criterion_id = cid) →
      get_flagged_criteria
          { s1 with screening_responses :=
              s1.screening_responses ++ [(iid, true)] } q =
        get_flagged_criteria s1 q) := by
  refine ⟨rfl, ?_, idsNodup_flagged s1 q, ?_⟩
  · intro c
    rw [mem_flagged_iff, mem_flagged_iff]
    constructor
    · rintro ⟨p, hp, h⟩
      exact ⟨p, hperm.mem_iff.mp hp, h⟩
    · rintro ⟨p, hp, h⟩
      exact ⟨p, hperm.mem_iff.mpr hp, h⟩
  · intro iid item hitem hall
    show (s1.screening_responses ++ [(iid, true)]).foldl (flagItemStep q) [] = _
    rw [List.foldl_append]
    show flagItemStep q (get_flagged_criteria s1 q) (iid, true) = _
    unfold flagItemStep
    simp only [Bool.not_true, Bool.false_eq_true, if_false]
    rw [hitem]
    dsimp only
    cases hd : alookup q.disorders item.disorder with
    | none => rfl
    | some d =>
      dsimp only
      exact innerFold_noop _ _ _ _ hall

/-- C7 (witness): the amended theorem applies to a concrete session pair
with permuted answers. -/
theorem C7_flagging_properties_witness :
    ([("s1", true), ("s2", true)] : List (String × Bool)).Perm
      [("s2", true), ("s1", true)] ∧
    (∀ c, (∃ f ∈ get_flagged_criteria
            { create_session "sid" "t0" "de" with
                screening_responses := [("s1", true), ("s2", true)] }
            ⟨[("s1", ⟨"D", ["c1"]⟩), ("s2", ⟨"D", ["c2"]⟩)],
             [("D", ⟨1, [("c1", [("d", "x")]), ("c2", [("d", "y")])]⟩)]⟩,
          f.criterion_id = c) ↔
        (∃ f ∈ get_flagged_criteria
            { create_session "sid" "t0" "de" with
                screening_responses := [("s2", true), ("s1", true)] }
            ⟨[("s1", ⟨"D", ["c1"]⟩), ("s2", ⟨"D", ["c2"]⟩)],
             [("D", ⟨1, [("c1", [("d", "x")]), ("c2", [("d", "y")])]⟩)]⟩,
          f.criterion_id = c)) :=
  ⟨List.Perm.swap _ _ _,
   (C7_flagging_properties
      ⟨[("s1", ⟨"D", ["c1"]⟩), ("s2", ⟨"D", ["c2"]⟩)],
       [("D", ⟨1, [("c1", [("d", "x")]), ("c2", [("d", "y")])]⟩)]⟩
      { create_session "sid" "t0" "de" with
          screening_responses := [("s1", true), ("s2", true)] }
      { create_session "sid" "t0" "de" with
          screening_responses := [("s2", true), ("s1", true)] }
      (List.Perm.swap _ _ _)).2.1⟩

/-- Full well-formedness of one flagged entry with respect to the bank. -/
def SoundEntry (q : Questions) (resp : List (String × Bool)) (f : Flagged) :
    Prop :=
  ∃ p ∈ resp, p.2 = true ∧
    ∃ item, alookup q.screening_items p.1 = some item ∧
      f.disorder = item.disorder ∧
      f.criterion_id ∈ item.maps_to_criteria ∧
      ∃ d, alookup q.disorders item.disorder = some d ∧
        alookup d.criteria f.criterion_id = some f.data ∧ f.data ≠ []

lemma sound_flagCritStep (dk : String) (d : Disorder) (acc2 : List Flagged)
    (cid : String) (f : Flagged) (hf : f ∈ flagCritStep dk d acc2 cid) :
    f ∈ acc2 ∨
      (f.criterion_id = cid ∧ f.disorder = dk ∧
       alookup d.criteria cid = some f.data ∧ f.data ≠ []) := by
  unfold flagCritStep at hf
  by_cases hmem : acc2.any (fun g => g.criterion_id == cid) = true
  · rw [if_pos hmem] at hf
    exact Or.inl hf
  · rw [if_neg hmem] at hf
    cases hcd : alookup d.criteria cid with
    | none =>
      rw [hcd] at hf
      exact Or.inl hf
    | some cd =>
      rw [hcd] at hf
      dsimp only at hf
      by_cases he : cd.isEmpty
      · rw [if_pos he] at hf
        exact Or.inl hf
      · rw [if_neg he] at hf
        rcases List.mem_append.mp hf with hf | hf
        · exact Or.inl hf
        · have hfe : f = ⟨cid, dk, cd⟩ := by simpa using hf
          subst hfe
          exact Or.inr ⟨rfl, rfl, rfl, by simpa [List.isEmpty_iff] using he⟩

lemma sound_innerFold (dk : String) (d : Disorder) (maps : List String)
    (acc2 : List Flagged) (f : Flagged)
    (hf : f ∈ maps.foldl (flagCritStep dk d) acc2) :
    f ∈ acc2 ∨
      (f.criterion_id ∈ maps ∧ f.disorder = dk ∧
       alookup d.criteria f.criterion_id = some f.data ∧ f.data ≠ []) := by
  induction maps generalizing acc2 with
  | nil => exact Or.inl hf
  | cons cid maps ih =>
    rw [List.foldl_cons] at hf
    rcases ih _ hf with hin | ⟨hm, hrest⟩
    · rcases sound_flagCritStep dk d acc2 cid f hin with hin | ⟨hid, hdk, hcd, hne⟩
      · exact Or.inl hin
      · exact Or.inr ⟨by rw [hid]; exact List.mem_cons_self _ _, hdk, by rwa [hid], hne⟩
    · exact Or.inr ⟨List.mem_cons_of_mem _ hm, hrest⟩

lemma sound_flagItemStep (q : Questions) (acc : List Flagged)
    (p : String × Bool) (f : Flagged) (hf : f ∈ flagItemStep q acc p) :
    f ∈ acc ∨
      (p.2 = true ∧
       ∃ item, alookup q.screening_items p.1 = some item ∧
         f.disorder = item.disorder ∧
         f.criterion_id ∈ item.maps_to_criteria ∧
         ∃ d, alookup q.disorders item.disorder = some d ∧
           alookup d.criteria f.criterion_id = some f.data ∧ f.data ≠ []) := by
  unfold flagItemStep at hf
  cases hb : p.2
  · rw [hb] at hf
    simp at hf
    exact Or.inl hf
  · rw [hb] at hf
    simp only [Bool.not_true, Bool.false_eq_true, if_false] at hf
    cases hitem : alookup q.screening_items p.1 with
    | none =>
      rw [hitem] at hf
      exact Or.inl hf
    | some item =>
      rw [hitem] at hf
      dsimp only at hf
      cases hd : alookup q.disorders item.disorder with
      | none =>
        rw [hd] at hf
        exact Or.inl hf
      | some d =>
        rw [hd] at hf
        dsimp only at hf
        rcases sound_innerFold _ _ _ _ _ hf with hin | ⟨hm, hdk, hcd, hne⟩
        · exact Or.inl hin
        · exact Or.inr ⟨rfl, item, rfl, hdk, hm, d, hd, hcd, hne⟩

lemma sound_outerFold (q : Questions) (resp : List (String × Bool))
    (acc : List Flagged) (f : Flagged)
    (hf : f ∈ resp.foldl (flagItemStep q) acc) :
    f ∈ acc ∨ SoundEntry q resp f := by
  induction resp generalizing acc with
  | nil => exact Or.inl hf
  | cons p resp ih =>
    rw [List.foldl_cons] at hf
    rcases ih _ hf with hin | ⟨p', hp', hrest⟩
    · rcases sound_flagItemStep q acc p f hin with hin | ⟨hb, hrest⟩
      · exact Or.inl hin
      · exact Or.inr ⟨p, List.mem_cons_self _ _, hb, hrest⟩
    · exact Or.inr ⟨p', List.mem_cons_of_mem _ hp', hrest⟩

/-- C10: flagging is total over arbitrary answer sets — every returned
entry is fully backed by the question bank: it came from a true-answered
screening item that exists, whose disorder exists, and whose referenced
criterion carries truthy data; unmatched ids are silently skipped, so no
partial entry is ever produced. -/
theorem C10_flagging_sound (s : Session) (q : Questions) (f : Flagged)
    (hf : f ∈ get_flagged_criteria s q) :
    SoundEntry q s.screening_responses f := by
  unfold get_flagged_criteria at hf
  rcases sound_outerFold q s.screening_responses [] f hf with hin | h
  · simp at hin
  · exact h

/-- C10 (witness): a concrete answer set containing an unknown item id, an
item with a missing disorder, and an item mapping a missing criterion still
yields only the one well-backed entry, and the theorem applies to it. -/
theorem C10_flagging_sound_witness :
    (⟨"c1", "D", [("d", "x")]⟩ : Flagged) ∈
      get_flagged_criteria
        { create_session "sid" "t0" "de" with
            screening_responses :=
              [("ghost", true), ("s9", true), ("s8", true), ("s1", true)] }
        ⟨[("s1", ⟨"D", ["c1"]⟩), ("s8", ⟨"D", ["cMissing"]⟩),
          ("s9", ⟨"NoSuchDisorder", ["c1"]⟩)],
         [("D", ⟨1, [("c1", [("d", "x")])]⟩)]⟩ ∧
    SoundEntry
      ⟨[("s1", ⟨"D", ["c1"]⟩), ("s8", ⟨"D", ["cMissing"]⟩),
        ("s9", ⟨"NoSuchDisorder", ["c1"]⟩)],
       [("D", ⟨1, [("c1", [("d", "x")])]⟩)]⟩
      [("ghost", true), ("s9", true), ("s8", true), ("s1", true)]
      ⟨"c1", "D", [("d", "x")]⟩ :=
  ⟨by decide,
   C10_flagging_sound
     { create_session "sid" "t0" "de" with
         screening_responses :=
           [("ghost", true), ("s9", true), ("s8", true), ("s1", true)] }
     ⟨[("s1", ⟨"D", ["c1"]⟩), ("s8", ⟨"D", ["cMissing"]⟩),
       ("s9", ⟨"NoSuchDisorder", ["c1"]⟩)],
      [("D", ⟨1, [("c1", [("d", "x")])]⟩)]⟩
     ⟨"c1", "D", [("d", "x")]⟩ (by decide)⟩

/-! ### C9 — verdict computation -/

/-- Does the stored result of this criterion have score exactly 2? -/
def critMet (results : List (String × ExplorationResult))
    (c : String × CritData) : Bool :=
  match alookup results c.1 with
  | some r => decide (r.score = .val 2)
  | none => false

/-- Is the stored result of this criterion Unknown or flagged unresolved? -/
def critUnresolved (results : List (String × ExplorationResult))
    (c : String × CritData) : Bool :=
  match alookup results c.1 with
  | some r => r.unresolved || decide (r.score = .unknown)
  | none => false

lemma countLoop_eq (results : List (String × ExplorationResult))
    (criteria : List (String × CritData)) (n0 : ℕ) (b0 : Bool) :
    criteria.foldl (fun (st : ℕ × Bool) c =>
      match alookup results c.1 with
      | some r =>
        ((if r.score = .val 2 then st.1 + 1 else st.1),
         st.2 || (r.unresolved || r.score = .unknown))
      | none => st) (n0, b0) =
    (n0 + criteria.countP (critMet results),
     b0 || criteria.any (critUnresolved results)) := by
  induction criteria generalizing n0 b0 with
  | nil => simp
  | cons c criteria ih =>
    rw [List.foldl_cons]
    cases hr : alookup results c.1 with
    | none =>
      dsimp only
      rw [ih]
      simp [List.countP_cons, List.any_cons, critMet, critUnresolved, hr]
    | some r =>
      dsimp only
      rw [ih]
      by_cases hs : r.score = .val 2 <;>
        simp [List.countP_cons, List.any_cons, critMet, critUnresolved, hr, hs,
          Bool.or_assoc] <;> omega

lemma foldl_append_filter {α β : Type} (P : α → Bool) (g : α → β)
    (l : List α) (init : List β) :
    l.foldl (fun acc x => if P x then acc ++ [g x] else acc) init =
      init ++ (l.filter P).map g := by
  induction l generalizing init with
  | nil => simp
  | cons x l ih =>
    rw [List.foldl_cons]
    by_cases hx : P x
    · rw [if_pos hx, ih]
      simp [hx]
    · rw [if_neg hx, ih]
      simp [hx]

/-- C9: `compute_disorder_verdicts` yields a verdict exactly for the
categories with at least one stored ExplorationResult (unexplored
categories are omitted); in each verdict, `criteria_met` counts the
criteria whose stored result has score exactly 2, `diagnosis` is
`criteria_met >= threshold`, and `has_unresolved` holds iff some
criterion's result is Unknown or flagged unresolved. -/
theorem C9_verdict_characterization (s : Session) (q : Questions) :
    compute_disorder_verdicts s q =
      (q.disorders.filter
        (fun p => p.2.criteria.any (fun c => memKey s.exploration_results c.1))).map
        (fun p =>
          (p.1,
           { criteria_met := p.2.criteria.countP (critMet s.exploration_results),
             threshold := p.2.threshold,
             diagnosis :=
               decide (((p.2.criteria.countP (critMet s.exploration_results)) : ℤ)
                 ≥ p.2.threshold),
             has_unresolved :=
               p.2.criteria.any (critUnresolved s.exploration_results) })) := by
  unfold compute_disorder_verdicts
  have hbody : (fun (verdicts : List (String × Verdict)) (p : String × Disorder) =>
      let counts := p.2.criteria.foldl (fun (st : ℕ × Bool) c =>
        match alookup s.exploration_results c.1 with
        | some r =>
          ((if r.score = .val 2 then st.1 + 1 else st.1),
           st.2 || (r.unresolved || r.score = .unknown))
        | none => st) (0, false)
      let explored := p.2.criteria.any (fun c => memKey s.exploration_results c.1)
      if explored then
        verdicts ++ [(p.1, ⟨counts.1, p.2.threshold,
          decide ((counts.1 : ℤ) ≥ p.2.threshold), counts.2⟩)]
      else verdicts) =
      (fun verdicts p =>
        if (fun (p : String × Disorder) =>
            p.2.criteria.any (fun c => memKey s.exploration_results c.1)) p then
          verdicts ++ [(fun (p : String × Disorder) =>
            (p.1,
             ({ criteria_met := p.2.criteria.countP (critMet s.exploration_results),
                threshold := p.2.threshold,
                diagnosis :=
                  decide (((p.2.criteria.countP (critMet s.exploration_results)) : ℤ)
                    ≥ p.2.threshold),
                has_unresolved :=
                  p.2.criteria.any (critUnresolved s.exploration_results) } : Verdict))) p]
        else verdicts) := by
    funext verdicts p
    rw [countLoop_eq]
    simp
  rw [hbody, foldl_append_filter]
  simp

/-! ### C5 / C8 — pipeline stage machine and single clarification pass -/

lemma mem_dictSet_elim {α : Type} (m : List (String × α)) (k : String) (v : α)
    (p : String × α) (hp : p ∈ dictSet m k v) :
    p = (k, v) ∨ (p ∈ m ∧ p.1 ≠ k) := by
  unfold dictSet at hp
  by_cases hany : m.any (fun q => q.1 == k) = true
  · rw [if_pos hany] at hp
    rcases List.mem_map.mp hp with ⟨q, hq, hqe⟩
    by_cases hqk : q.1 == k
    · rw [if_pos hqk] at hqe
      exact Or.inl hqe.symm
    · rw [if_neg hqk] at hqe
      subst hqe
      exact Or.inr ⟨hq, by simpa using hqk⟩
  · rw [if_neg hany] at hp
    rcases List.mem_append.mp hp with hp | hp
    · refine Or.inr ⟨hp, ?_⟩
      intro hk
      exact hany (List.any_eq_true.mpr ⟨p, hp, by simpa using hk⟩)
    · exact Or.inl (by simpa using hp)

lemma memKey_dictSet_self {α : Type} (m : List (String × α)) (k : String)
    (v : α) : memKey (dictSet m k v) k = true := by
  unfold dictSet memKey
  by_cases hany : m.any (fun q => q.1 == k) = true
  · rw [if_pos hany]
    rcases List.any_eq_true.mp hany with ⟨q, hq, hqk⟩
    refine List.any_eq_true.mpr ⟨(k, v), List.mem_map.mpr ⟨q, hq, by rw [if_pos hqk]⟩, by simp⟩
  · rw [if_neg hany]
    exact List.any_eq_true.mpr ⟨(k, v), List.mem_append.mpr (Or.inr (by simp)), by simp⟩

lemma memKey_dictSet_mono {α : Type} (m : List (String × α)) (k c : String)
    (v : α) (h : memKey m c = true) : memKey (dictSet m k v) c = true := by
  rcases List.any_eq_true.mp h with ⟨q, hq, hqc⟩
  unfold dictSet
  by_cases hany : m.any (fun q => q.1 == k) = true
  · rw [if_pos hany]
    by_cases hqk : q.1 == k
    · have hkc : k == c := by
        have h1 : q.1 = k := by simpa using hqk
        have h2 : q.1 = c := by simpa using hqc
        simp [← h1, h2]
      exact List.any_eq_true.mpr
        ⟨(k, v), List.mem_map.mpr ⟨q, hq, by rw [if_pos hqk]⟩, hkc⟩
    · exact List.any_eq_true.mpr
        ⟨q, List.mem_map.mpr ⟨q, hq, by rw [if_neg hqk]⟩, hqc⟩
  · rw [if_neg hany]
    exact List.any_eq_true.mpr ⟨q, List.mem_append.mpr (Or.inl hq), hqc⟩

/-- All stored results are first-pass (no clarification transcript yet). -/
def AllFP (results : List (String × ExplorationResult)) : Prop :=
  ∀ pr ∈ results, pr.2.clarification_transcript = none

/-- Some stored result already carries a clarification transcript. -/
def SecondPass (s : Session) : Prop :=
  ∃ pr ∈ s.exploration_results, pr.2.clarification_transcript ≠ none

/-- The durable-session invariant driving the single-clarification
property: a fresh INIT record has no results, and once any second-pass
result exists, every flagged criterion already has a result. -/
def PipeInv (q : Questions) (s : Session) : Prop :=
  (s.stage = .INIT → s.exploration_results = []) ∧
  (SecondPass s → ∀ f ∈ get_flagged_criteria s q,
    memKey s.exploration_results f.criterion_id = true)

lemma not_secondPass_iff (s : Session) :
    ¬ SecondPass s ↔ AllFP s.exploration_results := by
  unfold SecondPass AllFP
  push_neg
  rfl

lemma needsClar_mem (fl : List Flagged)
    (results : List (String × ExplorationResult))
    (pr : String × ExplorationResult) (h : pr ∈ needsClar fl results) :
    pr ∈ results ∧ pr.2.unresolved = true ∧
      ctTruthy pr.2.clarification_transcript = false := by
  unfold needsClar at h
  rcases List.mem_filterMap.mp h with ⟨a, ha, hfa⟩
  by_cases hcond : a.2.unresolved && !ctTruthy a.2.clarification_transcript
  · rw [if_pos hcond] at hfa
    cases hfind : fl.find? (fun f => f.criterion_id == a.1) with
    | none => rw [hfind] at hfa; exact absurd hfa (by simp)
    | some g =>
      rw [hfind] at hfa
      have hae : a = pr := by simpa using hfa
      subst hae
      have hc := (Bool.and_eq_true _ _).mp hcond
      refine ⟨ha, hc.1, ?_⟩
      have := hc.2
      cases hct : ctTruthy a.2.clarification_transcript
      · rfl
      · rw [hct] at this; simp at this
  · rw [if_neg hcond] at hfa
    exact absurd hfa (by simp)

lemma needsClar_mem_intro (fl : List Flagged)
    (results : List (String × ExplorationResult))
    (pr : String × ExplorationResult) (hin : pr ∈ results)
    (hu : pr.2.unresolved = true)
    (hct : ctTruthy pr.2.clarification_transcript = false)
    (hfind : ∃ g ∈ fl, g.criterion_id = pr.1) :
    pr ∈ needsClar fl results := by
  unfold needsClar
  refine List.mem_filterMap.mpr ⟨pr, hin, ?_⟩
  rw [if_pos (by simp [hu, hct])]
  rcases hfind with ⟨g, hg, hgid⟩
  cases hf : fl.find? (fun f => f.criterion_id == pr.1) with
  | none =>
    have := List.find?_eq_none.mp hf g hg
    simp [hgid] at this
  | some g' => rfl

lemma needsClar_nil_prop (fl : List Flagged)
    (results : List (String × ExplorationResult))
    (hnil : needsClar fl results = [])
    (hfind : ∀ pr ∈ results, ∃ g ∈ fl, g.criterion_id = pr.1) :
    ∀ pr ∈ results, pr.2.unresolved = true →
      ctTruthy pr.2.clarification_transcript = true := by
  intro pr hin hu
  by_contra hct
  have hct' : ctTruthy pr.2.clarification_transcript = false := by
    cases h : ctTruthy pr.2.clarification_transcript
    · rfl
    · exact absurd h hct
  have := needsClar_mem_intro fl results pr hin hu hct' (hfind pr hin)
  rw [hnil] at this
  exact absurd this (by simp)

/-- The session update performed by one exploration rating. -/
def rateUpd (r : String → String → RaterOutcome) (s : Session)
    (p : String × String) : Session :=
  { s with exploration_results :=
      dictSet s.exploration_results p.1 (mkResult (r p.1 p.2) p.2 none) }

lemma rateStep_none (fl : List Flagged) (r : String → String → RaterOutcome)
    (acc : List Evt × Session) (p : String × String)
    (hf : fl.find? (fun f => f.criterion_id == p.1) = none) :
    rateStep fl r acc p = acc := by
  unfold rateStep
  rw [hf]

lemma rateStep_some (fl : List Flagged) (r : String → String → RaterOutcome)
    (acc : List Evt × Session) (p : String × String) (g : Flagged)
    (hf : fl.find? (fun f => f.criterion_id == p.1) = some g) :
    rateStep fl r acc p =
      (acc.1 ++ [.save (rateUpd r acc.2 p)], rateUpd r acc.2 p) := by
  unfold rateStep rateUpd
  rw [hf]

/-- `original_result.get("transcript", "")` at main.py lines 210-211. -/
def origTranscript (s : Session) (cid : String) : String :=
  match alookup s.exploration_results cid with
  | some r => r.transcript
  | none => ""

/-- The session update performed by one clarification re-rating. -/
def clarUpd (r2 : String → String → RaterOutcome) (tr2 : String → String)
    (s : Session) (cid : String) : Session :=
  { s with exploration_results :=
      (dictSet s.exploration_results cid
        (mkResult (r2 cid (tr2 cid)) (origTranscript s cid) (some (tr2 cid)))) }

lemma clarStep_none (fl : List Flagged) (r2 : String → String → RaterOutcome)
    (tr2 : String → String) (acc : List Evt × Session) (cid : String)
    (hf : fl.find? (fun f => f.criterion_id == cid) = none) :
    clarStep fl r2 tr2 acc cid = acc := by
  unfold clarStep
  rw [hf]

lemma clarStep_some (fl : List Flagged) (r2 : String → String → RaterOutcome)
    (tr2 : String → String) (acc : List Evt × Session) (cid : String)
    (g : Flagged) (hf : fl.find? (fun f => f.criterion_id == cid) = some g) :
    clarStep fl r2 tr2 acc cid =
      (acc.1 ++ [.save (clarUpd r2 tr2 acc.2 cid)], clarUpd r2 tr2 acc.2 cid) := by
  unfold clarStep clarUpd origTranscript
  rw [hf]

lemma rateFold_decomp (fl : List Flagged) (r : String → String → RaterOutcome)
    (pairs : List (String × String)) (evts0 : List Evt) (s0 : Session) :
    pairs.foldl (rateStep fl r) (evts0, s0) =
      (evts0 ++ (pairs.foldl (rateStep fl r) ([], s0)).1,
       (pairs.foldl (rateStep fl r) ([], s0)).2) := by
  induction pairs generalizing evts0 s0 with
  | nil => simp
  | cons p pairs ih =>
    rw [List.foldl_cons, List.foldl_cons]
    cases hf : fl.find? (fun f => f.criterion_id == p.1) with
    | none =>
      rw [rateStep_none fl r (evts0, s0) p hf, rateStep_none fl r ([], s0) p hf]
      exact ih evts0 s0
    | some g =>
      rw [rateStep_some fl r (evts0, s0) p g hf, rateStep_some fl r ([], s0) p g hf]
      dsimp only
      simp only [List.nil_append]
      rw [ih (evts0 ++ [_]) _, ih [_] _]
      simp

lemma clarFold_decomp (fl : List Flagged) (r2 : String → String → RaterOutcome)
    (tr2 : String → String) (ids : List String) (evts0 : List Evt)
    (s0 : Session) :
    ids.foldl (clarStep fl r2 tr2) (evts0, s0) =
      (evts0 ++ (ids.foldl (clarStep fl r2 tr2) ([], s0)).1,
       (ids.foldl (clarStep fl r2 tr2) ([], s0)).2) := by
  induction ids generalizing evts0 s0 with
  | nil => simp
  | cons cid ids ih =>
    rw [List.foldl_cons, List.foldl_cons]
    cases hf : fl.find? (fun f => f.criterion_id == cid) with
    | none =>
      rw [clarStep_none fl r2 tr2 (evts0, s0) cid hf,
        clarStep_none fl r2 tr2 ([], s0) cid hf]
      exact ih evts0 s0
    | some g =>
      rw [clarStep_some fl r2 tr2 (evts0, s0) cid g hf,
        clarStep_some fl r2 tr2 ([], s0) cid g hf]
      dsimp only
      simp only [List.nil_append]
      rw [ih (evts0 ++ [_]) _, ih [_] _]
      simp

lemma allFP_dictSet_none (results : List (String × ExplorationResult))
    (k : String) (o : RaterOutcome) (tr : String)
    (h : AllFP results) : AllFP (dictSet results k (mkResult o tr none)) := by
  intro pr hpr
  rcases mem_dictSet_elim _ _ _ _ hpr with hpr | ⟨hin, _⟩
  · rw [hpr]
    rfl
  · exact h pr hin

lemma rateFold_main (fl : List Flagged) (r : String → String → RaterOutcome)
    (pairs : List (String × String)) :
    ∀ s0 : Session,
      ((pairs.foldl (rateStep fl r) ([], s0)).2.stage = s0.stage ∧
       (pairs.foldl (rateStep fl r) ([], s0)).2.screening_responses =
         s0.screening_responses) ∧
      (AllFP s0.exploration_results →
        AllFP (pairs.foldl (rateStep fl r) ([], s0)).2.exploration_results) ∧
      (∀ c, memKey s0.exploration_results c = true →
        memKey (pairs.foldl (rateStep fl r) ([], s0)).2.exploration_results c = true) ∧
      (∀ q' ∈ pairs, (∃ g ∈ fl, g.criterion_id = q'.1) →
        memKey (pairs.foldl (rateStep fl r) ([], s0)).2.exploration_results q'.1 = true) ∧
      ((∀ pr ∈ s0.exploration_results, ∃ g ∈ fl, g.criterion_id = pr.1) →
        ∀ pr ∈ (pairs.foldl (rateStep fl r) ([], s0)).2.exploration_results,
          ∃ g ∈ fl, g.criterion_id = pr.1) ∧
      (∀ e ∈ (pairs.foldl (rateStep fl r) ([], s0)).1, ∃ s',
        e = Evt.save s' ∧ s'.stage = s0.stage ∧
        s'.screening_responses = s0.screening_responses ∧
        (AllFP s0.exploration_results → AllFP s'.exploration_results)) := by
  induction pairs with
  | nil =>
    intro s0
    exact ⟨⟨rfl, rfl⟩, fun h => h, fun c h => h, by simp, fun h => h, by simp⟩
  | cons p pairs ih =>
    intro s0
    rw [List.foldl_cons]
    cases hf : fl.find? (fun f => f.criterion_id == p.1) with
    | none =>
      rw [rateStep_none fl r ([], s0) p hf]
      obtain ⟨h1, h2, h3, h4, h5, h6⟩ := ih s0
      refine ⟨h1, h2, h3, ?_, h5, h6⟩
      intro q' hq' hg
      rcases List.mem_cons.mp hq' with heq | hq'
      · rcases hg with ⟨g, hgf, hgid⟩
        have := List.find?_eq_none.mp hf g hgf
        rw [heq] at hgid
        simp [hgid] at this
      · exact h4 q' hq' hg
    | some g =>
      rw [rateStep_some fl r ([], s0) p g hf]
      dsimp only
      simp only [List.nil_append]
      rw [rateFold_decomp]
      obtain ⟨h1, h2, h3, h4, h5, h6⟩ := ih (rateUpd r s0 p)
      refine ⟨⟨h1.1, h1.2⟩, ?_, ?_, ?_, ?_, ?_⟩
      · intro hfp
        exact h2 (allFP_dictSet_none _ _ _ _ hfp)
      · intro c hc
        exact h3 c (memKey_dictSet_mono _ _ _ _ hc)
      · intro q' hq' hg
        rcases List.mem_cons.mp hq' with heq | hq'
        · rw [heq]
          exact h3 p.1 (memKey_dictSet_self _ _ _)
        · exact h4 q' hq' hg
      · intro hfd
        apply h5
        intro pr hpr
        rcases mem_dictSet_elim _ _ _ _ hpr with hpr | ⟨hin, _⟩
        · refine ⟨g, List.mem_of_find?_eq_some hf, ?_⟩
          have := List.find?_some hf
          rw [hpr]
          simpa using this
        · exact hfd pr hin
      · intro e he
        rcases List.mem_append.mp he with he | he
        · have heq : e = Evt.save (rateUpd r s0 p) := by simpa using he
          exact ⟨rateUpd r s0 p, heq, rfl, rfl,
            fun h => allFP_dictSet_none _ _ _ _ h⟩
        · obtain ⟨s', hes, hst, hre, hfp⟩ := h6 e he
          exact ⟨s', hes, hst, hre,
            fun h => hfp (allFP_dictSet_none _ _ _ _ h)⟩

lemma clarUpd_ct (r2 : String → String → RaterOutcome) (tr2 : String → String)
    (s : Session) (cid : String) (pr : String × ExplorationResult)
    (hpr : pr ∈ (clarUpd r2 tr2 s cid).exploration_results) :
    (pr ∈ s.exploration_results ∧ pr.1 ≠ cid) ∨
      pr.2.clarification_transcript ≠ none := by
  rcases mem_dictSet_elim _ _ _ _ hpr with hpr | ⟨hin, hne⟩
  · right
    rw [hpr]
    simp [mkResult]
  · exact Or.inl ⟨hin, hne⟩

lemma clarFold_main (fl : List Flagged) (r2 : String → String → RaterOutcome)
    (tr2 : String → String) (ids : List String) :
    ∀ s0 : Session,
      ((ids.foldl (clarStep fl r2 tr2) ([], s0)).2.stage = s0.stage ∧
       (ids.foldl (clarStep fl r2 tr2) ([], s0)).2.screening_responses =
         s0.screening_responses) ∧
      (∀ c, memKey s0.exploration_results c = true →
        memKey (ids.foldl (clarStep fl r2 tr2) ([], s0)).2.exploration_results c = true) ∧
      ((∀ cid ∈ ids, ∃ g ∈ fl, g.criterion_id = cid) →
        ∀ pr ∈ (ids.foldl (clarStep fl r2 tr2) ([], s0)).2.exploration_results,
          (pr ∈ s0.exploration_results ∧ pr.1 ∉ ids) ∨
            pr.2.clarification_transcript ≠ none) ∧
      (∀ e ∈ (ids.foldl (clarStep fl r2 tr2) ([], s0)).1, ∃ s',
        e = Evt.save s' ∧ s'.stage = s0.stage ∧
        s'.screening_responses = s0.screening_responses ∧
        (∀ c, memKey s0.exploration_results c = true →
          memKey s'.exploration_results c = true)) := by
  induction ids with
  | nil =>
    intro s0
    refine ⟨⟨rfl, rfl⟩, fun c h => h, ?_, by simp⟩
    intro _ pr hpr
    exact Or.inl ⟨hpr, by simp⟩
  | cons cid ids ih =>
    intro s0
    rw [List.foldl_cons]
    cases hf : fl.find? (fun f => f.criterion_id == cid) with
    | none =>
      rw [clarStep_none fl r2 tr2 ([], s0) cid hf]
      obtain ⟨h1, h2, h3, h4⟩ := ih s0
      refine ⟨h1, h2, ?_, h4⟩
      intro hfind
      rcases hfind cid (List.mem_cons_self _ _) with ⟨g, hgf, hgid⟩
      have := List.find?_eq_none.mp hf g hgf
      simp [hgid] at this
    | some g =>
      rw [clarStep_some fl r2 tr2 ([], s0) cid g hf]
      dsimp only
      simp only [List.nil_append]
      rw [clarFold_decomp]
      obtain ⟨h1, h2, h3, h4⟩ := ih (clarUpd r2 tr2 s0 cid)
      refine ⟨⟨h1.1, h1.2⟩, ?_, ?_, ?_⟩
      · intro c hc
        exact h2 c (memKey_dictSet_mono _ _ _ _ hc)
      · intro hfind pr hpr
        rcases h3 (fun c hc => hfind c (List.mem_cons_of_mem _ hc)) pr hpr with
          ⟨hin, hnotin⟩ | hct
        · rcases clarUpd_ct r2 tr2 s0 cid pr hin with ⟨hin0, hne⟩ | hct
          · exact Or.inl ⟨hin0, by simp [hne, hnotin]⟩
          · exact Or.inr hct
        · exact Or.inr hct
      · intro e he
        rcases List.mem_append.mp he with he | he
        · have heq : e = Evt.save (clarUpd r2 tr2 s0 cid) := by simpa using he
          exact ⟨clarUpd r2 tr2 s0 cid, heq, rfl, rfl,
            fun c hc => memKey_dictSet_mono _ _ _ _ hc⟩
        · obtain ⟨s', hes, hst, hre, hmem⟩ := h4 e he
          exact ⟨s', hes, hst, hre,
            fun c hc => hmem c (memKey_dictSet_mono _ _ _ _ hc)⟩

lemma needsClar_mem_find (fl : List Flagged)
    (results : List (String × ExplorationResult))
    (pr : String × ExplorationResult) (h : pr ∈ needsClar fl results) :
    ∃ g ∈ fl, g.criterion_id = pr.1 := by
  unfold needsClar at h
  rcases List.mem_filterMap.mp h with ⟨a, _, hfa⟩
  by_cases hcond : a.2.unresolved && !ctTruthy a.2.clarification_transcript
  · rw [if_pos hcond] at hfa
    cases hfind : fl.find? (fun f => f.criterion_id == a.1) with
    | none => rw [hfind] at hfa; exact absurd hfa (by simp)
    | some g =>
      rw [hfind] at hfa
      have hae : a = pr := by simpa using hfa
      subst hae
      refine ⟨g, List.mem_of_find?_eq_some hfind, ?_⟩
      simpa using List.find?_some hfind
  · rw [if_neg hcond] at hfa
    exact absurd hfa (by simp)

lemma mem_savesOf (l : List Evt) (s' : Session) :
    s' ∈ savesOf l ↔ Evt.save s' ∈ l := by
  unfold savesOf
  constructor
  · intro h
    rcases List.mem_filterMap.mp h with ⟨e, he, hfe⟩
    cases e with
    | save s'' =>
      have : s'' = s' := by simpa using hfe
      subst this
      exact he
    | select _ => exact absurd hfe (by simp)
  · intro h
    exact List.mem_filterMap.mpr ⟨Evt.save s', h, rfl⟩

lemma selectsOf_nil_of_saves (l : List Evt)
    (h : ∀ e ∈ l, ∃ s', e = Evt.save s') : selectsOf l = [] := by
  unfold selectsOf
  rw [List.filterMap_eq_nil]
  intro e he
  rcases h e he with ⟨s', hes⟩
  rw [hes]

lemma stagesOf_replicate_of (l : List Evt) (x : Stage)
    (h : ∀ e ∈ l, ∃ s', e = Evt.save s' ∧ s'.stage = x) :
    ∃ k, stagesOf l = List.replicate k x := by
  refine ⟨(stagesOf l).length, List.eq_replicate_of_mem ?_⟩
  intro b hb
  unfold stagesOf at hb
  rcases List.mem_map.mp hb with ⟨s', hs', hbe⟩
  rcases h (Evt.save s') ((mem_savesOf l s').mp hs') with ⟨s'', hes, hst⟩
  have : s'' = s' := by simpa using hes.symm
  subst this
  rw [← hbe, hst]

lemma ctTruthy_ne_none (o : Option String) (h : ctTruthy o = true) :
    o ≠ none := by
  cases o
  · simp [ctTruthy] at h
  · simp

lemma get_flagged_resp (q : Questions) (s1 s2 : Session)
    (h : s1.screening_responses = s2.screening_responses) :
    get_flagged_criteria s1 q = get_flagged_criteria s2 q := by
  unfold get_flagged_criteria
  rw [h]

/-- Criteria left in `remaining` are exactly the flagged ones without a
stored result; an empty `remaining` means every flagged criterion has one. -/
lemma remainingOf_empty (q : Questions) (s : Session)
    (h : (remainingOf q s).isEmpty = true) :
    ∀ f ∈ get_flagged_criteria s q,
      memKey s.exploration_results f.criterion_id = true := by
  intro f hf
  have hnil : remainingOf q s = [] := by simpa [List.isEmpty_iff] using h
  unfold remainingOf at hnil
  by_cases hm : memKey s.exploration_results f.criterion_id = true
  · exact hm
  · have : f ∈ (get_flagged_criteria s q).filter
        (fun f => !(memKey s.exploration_results f.criterion_id)) := by
      refine List.mem_filter.mpr ⟨hf, ?_⟩
      have hfm : memKey s.exploration_results f.criterion_id = false := by
        cases hmm : memKey s.exploration_results f.criterion_id
        · rfl
        · exact absurd hmm hm
      simp [hfm]
    rw [hnil] at this
    exact absurd this (by simp)

lemma remainingOf_nonempty_no_secondPass (q : Questions) (s : Session)
    (hinv : PipeInv q s) (h : (remainingOf q s).isEmpty = false) :
    AllFP s.exploration_results := by
  rw [← not_secondPass_iff]
  intro hsp
  have hne : remainingOf q s ≠ [] := by
    intro hnil
    rw [hnil] at h
    simp at h
  rcases List.exists_mem_of_ne_nil _ hne with ⟨f, hf⟩
  unfold remainingOf at hf
  rcases List.mem_filter.mp hf with ⟨hfl, hcond⟩
  have := hinv.2 hsp f hfl
  simp [this] at hcond

lemma savesOf_append (l1 l2 : List Evt) :
    savesOf (l1 ++ l2) = savesOf l1 ++ savesOf l2 := by
  simp [savesOf]

lemma selectsOf_append (l1 l2 : List Evt) :
    selectsOf (l1 ++ l2) = selectsOf l1 ++ selectsOf l2 := by
  simp [selectsOf]

lemma stagesOf_append (l1 l2 : List Evt) :
    stagesOf (l1 ++ l2) = stagesOf l1 ++ stagesOf l2 := by
  simp [stagesOf, savesOf]

lemma savesOf_save (s' : Session) : savesOf [Evt.save s'] = [s'] := rfl

lemma savesOf_select (l : List (String × ExplorationResult)) :
    savesOf [Evt.select l] = [] := rfl

lemma selectsOf_save (s' : Session) : selectsOf [Evt.save s'] = [] := rfl

lemma selectsOf_select (l : List (String × ExplorationResult)) :
    selectsOf [Evt.select l] = [l] := rfl

lemma stagesOf_save (s' : Session) : stagesOf [Evt.save s'] = [s'.stage] := rfl

lemma stagesOf_select (l : List (String × ExplorationResult)) :
    stagesOf [Evt.select l] = [] := rfl

lemma explorationPart_main (q : Questions) (inp : Inputs) (s : Session)
    (hstage : s.stage ≠ .INIT) (hinv : PipeInv q s) :
    (∀ sel ∈ selectsOf (explorationPart q inp s).1, ∀ pr ∈ sel,
      pr.2.unresolved = true ∧ pr.2.clarification_transcript = none) ∧
    (∀ s' ∈ savesOf (explorationPart q inp s).1, PipeInv q s') ∧
    PipeInv q (explorationPart q inp s).2 ∧
    (explorationPart q inp s).2.stage = .EVALUATION ∧
    (∃ k, stagesOf (explorationPart q inp s).1 =
      List.replicate k s.stage ++ [Stage.EVALUATION]) ∧
    (s.exploration_results = [] → s.stage ≠ .EVALUATION →
      ∀ s' ∈ savesOf (explorationPart q inp s).1, s'.stage = .EVALUATION →
        (∀ f ∈ get_flagged_criteria s' q,
          memKey s'.exploration_results f.criterion_id = true) ∧
        (∀ pr ∈ s'.exploration_results, pr.2.unresolved = true →
          pr.2.clarification_transcript ≠ none)) := by
  by_cases hrem : (remainingOf q s).isEmpty = true
  case pos =>
    have heq : explorationPart q inp s =
        ([.save { s with stage := .EVALUATION }], { s with stage := .EVALUATION }) := by
      unfold explorationPart
      rw [if_pos hrem]
    rw [heq]
    have hInvE : PipeInv q ({ s with stage := .EVALUATION } : Session) := by
      constructor
      · intro h
        exact absurd h (by simp)
      · intro hsp f hf
        refine hinv.2 hsp f ?_
        rw [get_flagged_resp q s { s with stage := .EVALUATION } rfl]
        exact hf
    refine ⟨?_, ?_, hInvE, rfl, ⟨0, rfl⟩, ?_⟩
    · intro sel hsel
      rw [selectsOf_save] at hsel
      exact absurd hsel (by simp)
    · intro s' hs'
      rw [savesOf_save] at hs'
      have : s' = { s with stage := .EVALUATION } := by simpa using hs'
      rw [this]
      exact hInvE
    · intro hres0 _ s' hs' _
      rw [savesOf_save] at hs'
      have hse : s' = { s with stage := .EVALUATION } := by simpa using hs'
      subst hse
      constructor
      · intro f hf
        refine remainingOf_empty q s hrem f ?_
        rw [get_flagged_resp q s { s with stage := .EVALUATION } rfl]
        exact hf
      · intro pr hpr
        rw [show ({ s with stage := .EVALUATION } : Session).exploration_results =
          s.exploration_results from rfl, hres0] at hpr
        exact absurd hpr (by simp)
  case neg =>
    have hremF : (remainingOf q s).isEmpty = false := by
      cases h : (remainingOf q s).isEmpty
      · rfl
      · exact absurd h hrem
    have hafp : AllFP s.exploration_results :=
      remainingOf_nonempty_no_secondPass q s hinv hremF
    obtain ⟨hsess, hafp', hmono, hpair, hfd', hevts⟩ :=
      rateFold_main (get_flagged_criteria s q) inp.rate1
        ((remainingOf q s).map (fun f => (f.criterion_id, inp.transcript1 f.criterion_id))) s
    have hRPstage : (ratePhase q inp s).2.stage = s.stage := hsess.1
    have hRPresp : (ratePhase q inp s).2.screening_responses =
        s.screening_responses := hsess.2
    have hRPevts : ∀ e ∈ (ratePhase q inp s).1, ∃ s',
        e = Evt.save s' ∧ s'.stage = s.stage ∧
        s'.screening_responses = s.screening_responses ∧
        (AllFP s.exploration_results → AllFP s'.exploration_results) := hevts
    have hall : ∀ f ∈ get_flagged_criteria s q,
        memKey (ratePhase q inp s).2.exploration_results f.criterion_id = true := by
      intro f hf
      by_cases hm : memKey s.exploration_results f.criterion_id = true
      · exact hmono f.criterion_id hm
      · have hmf : memKey s.exploration_results f.criterion_id = false := by
          cases h : memKey s.exploration_results f.criterion_id
          · rfl
          · exact absurd h hm
        have hrm : f ∈ remainingOf q s := by
          unfold remainingOf
          exact List.mem_filter.mpr ⟨hf, by simp [hmf]⟩
        exact hpair (f.criterion_id, inp.transcript1 f.criterion_id)
          (List.mem_map.mpr ⟨f, hrm, rfl⟩) ⟨f, hf, rfl⟩
    have hafpRP : AllFP (ratePhase q inp s).2.exploration_results := hafp' hafp
    have hselOK : ∀ pr ∈ selPhase q inp s,
        pr.2.unresolved = true ∧ pr.2.clarification_transcript = none := by
      intro pr hpr
      obtain ⟨hin, hu, _⟩ := needsClar_mem _ _ pr hpr
      exact ⟨hu, hafpRP pr hin⟩
    have hRPselNil : selectsOf (ratePhase q inp s).1 = [] :=
      selectsOf_nil_of_saves _ (fun e he => (hRPevts e he).imp (fun s2 h' => h'.1))
    have hRPstages : ∃ k, stagesOf (ratePhase q inp s).1 =
        List.replicate k s.stage :=
      stagesOf_replicate_of _ s.stage
        (fun e he => (hRPevts e he).imp (fun s2 h' => ⟨h'.1, h'.2.1⟩))
    have hsaveRP : ∀ s' ∈ savesOf (ratePhase q inp s).1, PipeInv q s' := by
      intro s' hs'
      obtain ⟨s'', hes, hst, _, hfp⟩ :=
        hRPevts (Evt.save s') ((mem_savesOf _ _).mp hs')
      have hse2 : s' = s'' := by simpa using hes
      subst hse2
      constructor
      · intro h
        rw [h] at hst
        exact absurd hst.symm hstage
      · intro hsp
        exact absurd hsp ((not_secondPass_iff s').mpr (hfp hafp))
    have hRPguard : ∀ s' ∈ savesOf (ratePhase q inp s).1,
        s'.stage = s.stage := by
      intro s' hs'
      obtain ⟨s'', hes, hst, _, _⟩ :=
        hRPevts (Evt.save s') ((mem_savesOf _ _).mp hs')
      have hse2 : s' = s'' := by simpa using hes
      subst hse2
      exact hst
    by_cases hsel : (selPhase q inp s).isEmpty = true
    case pos =>
      have heq : explorationPart q inp s =
          ((ratePhase q inp s).1 ++
             [.save { (ratePhase q inp s).2 with stage := .EVALUATION }],
           { (ratePhase q inp s).2 with stage := .EVALUATION }) := by
        unfold explorationPart
        rw [if_neg hrem, if_pos hsel]
      rw [heq]
      have hInv2 : PipeInv q
          ({ (ratePhase q inp s).2 with stage := .EVALUATION } : Session) := by
        constructor
        · intro h
          exact absurd h (by simp)
        · intro hsp
          exact absurd hsp ((not_secondPass_iff _).mpr hafpRP)
      refine ⟨?_, ?_, hInv2, rfl, ?_, ?_⟩
      · intro sel hsel'
        rw [selectsOf_append, selectsOf_save, hRPselNil] at hsel'
        exact absurd hsel' (by simp)
      · intro s' hs'
        rw [savesOf_append, savesOf_save] at hs'
        rcases List.mem_append.mp hs' with h | h
        · exact hsaveRP s' h
        · have : s' = { (ratePhase q inp s).2 with stage := .EVALUATION } := by
            simpa using h
          rw [this]
          exact hInv2
      · obtain ⟨k, hk⟩ := hRPstages
        refine ⟨k, ?_⟩
        rw [stagesOf_append, stagesOf_save, hk]
      · intro hres0 hnev s' hs' hevst
        rw [savesOf_append, savesOf_save] at hs'
        rcases List.mem_append.mp hs' with h | h
        · have := hRPguard s' h
          rw [hevst] at this
          exact absurd this.symm hnev
        · have hse : s' = { (ratePhase q inp s).2 with stage := .EVALUATION } := by
            simpa using h
          subst hse
          constructor
          · intro f hf
            refine hall f ?_
            rw [get_flagged_resp q
              { (ratePhase q inp s).2 with stage := Stage.EVALUATION } s hRPresp] at hf
            exact hf
          · intro pr hpr hu
            have hfind : ∀ pr' ∈ (ratePhase q inp s).2.exploration_results,
                ∃ g ∈ get_flagged_criteria s q, g.criterion_id = pr'.1 := by
              refine hfd' ?_
              rw [hres0]
              intro pr' hpr'
              exact absurd hpr' (by simp)
            have hnil : selPhase q inp s = [] := by
              simpa [List.isEmpty_iff] using hsel
            have := needsClar_nil_prop (get_flagged_criteria s q)
              (ratePhase q inp s).2.exploration_results hnil hfind pr hpr hu
            exact ctTruthy_ne_none _ this
    case neg =>
      have heq : explorationPart q inp s =
          ((ratePhase q inp s).1 ++ [.select (selPhase q inp s)] ++
             (clarPhase q inp s).1 ++
             [.save { (clarPhase q inp s).2 with stage := .EVALUATION }],
           { (clarPhase q inp s).2 with stage := .EVALUATION }) := by
        unfold explorationPart
        rw [if_neg hrem, if_neg hsel]
      rw [heq]
      obtain ⟨csess, cmono, cuntouched, cevts⟩ :=
        clarFold_main (get_flagged_criteria s q) inp.rate2 inp.transcript2
          ((selPhase q inp s).map (fun p => p.1)) (ratePhase q inp s).2
      have hCPstage : (clarPhase q inp s).2.stage = s.stage := by
        rw [show (clarPhase q inp s).2.stage =
          (ratePhase q inp s).2.stage from csess.1, hRPstage]
      have hCPresp : (clarPhase q inp s).2.screening_responses =
          s.screening_responses := by
        rw [show (clarPhase q inp s).2.screening_responses =
          (ratePhase q inp s).2.screening_responses from csess.2, hRPresp]
      have hCPevts : ∀ e ∈ (clarPhase q inp s).1, ∃ s',
          e = Evt.save s' ∧
          s'.stage = (ratePhase q inp s).2.stage ∧
          s'.screening_responses = (ratePhase q inp s).2.screening_responses ∧
          (∀ c, memKey (ratePhase q inp s).2.exploration_results c = true →
            memKey s'.exploration_results c = true) := cevts
      have hCPselNil : selectsOf (clarPhase q inp s).1 = [] :=
        selectsOf_nil_of_saves _ (fun e he => (hCPevts e he).imp (fun s2 h' => h'.1))
      have hCPstages : ∃ k, stagesOf (clarPhase q inp s).1 =
          List.replicate k s.stage :=
        stagesOf_replicate_of _ s.stage
          (fun e he => (hCPevts e he).imp
            (fun s2 h' => ⟨h'.1, by rw [h'.2.1, hRPstage]⟩))
      have hidsfind : ∀ cid ∈ (selPhase q inp s).map (fun p => p.1),
          ∃ g ∈ get_flagged_criteria s q, g.criterion_id = cid := by
        intro cid hcid
        rcases List.mem_map.mp hcid with ⟨pr, hpr, hpe⟩
        rw [← hpe]
        exact needsClar_mem_find _ _ pr hpr
      have hallC : ∀ f ∈ get_flagged_criteria s q,
          memKey (clarPhase q inp s).2.exploration_results f.criterion_id = true :=
        fun f hf => cmono f.criterion_id (hall f hf)
      have hInv3 : PipeInv q
          ({ (clarPhase q inp s).2 with stage := .EVALUATION } : Session) := by
        constructor
        · intro h
          exact absurd h (by simp)
        · intro _ f hf
          refine hallC f ?_
          rw [get_flagged_resp q
            { (clarPhase q inp s).2 with stage := Stage.EVALUATION } s hCPresp] at hf
          exact hf
      refine ⟨?_, ?_, hInv3, rfl, ?_, ?_⟩
      · intro sel hsel'
        rw [selectsOf_append, selectsOf_append, selectsOf_append,
          selectsOf_save, selectsOf_select, hRPselNil, hCPselNil] at hsel'
        have : sel = selPhase q inp s := by simpa using hsel'
        rw [this]
        exact hselOK
      · intro s' hs'
        rw [savesOf_append, savesOf_append, savesOf_append,
          savesOf_save, savesOf_select] at hs'
        rcases List.mem_append.mp hs' with hs' | hlast
        · rcases List.mem_append.mp hs' with hs' | hclar
          · rcases List.mem_append.mp hs' with hrate | hnil
            · exact hsaveRP s' hrate
            · exact absurd hnil (by simp)
          · obtain ⟨s'', hes, hst, hre, hmem⟩ :=
              hCPevts (Evt.save s') ((mem_savesOf _ _).mp hclar)
            have hse2 : s' = s'' := by simpa using hes
            subst hse2
            constructor
            · intro h
              rw [h, hRPstage] at hst
              exact absurd hst.symm hstage
            · intro _ f hf
              have hre2 : s'.screening_responses = s.screening_responses := by
                rw [hre, hRPresp]
              refine hmem f.criterion_id (hall f ?_)
              rw [get_flagged_resp q _ s hre2] at hf
              exact hf
        · have : s' = { (clarPhase q inp s).2 with stage := .EVALUATION } := by
            simpa using hlast
          rw [this]
          exact hInv3
      · obtain ⟨k1, hk1⟩ := hRPstages
        obtain ⟨k2, hk2⟩ := hCPstages
        refine ⟨k1 + k2, ?_⟩
        rw [stagesOf_append, stagesOf_append, stagesOf_append,
          stagesOf_save, stagesOf_select, hk1, hk2, List.replicate_add]
        simp
      · intro hres0 hnev s' hs' hevst
        rw [savesOf_append, savesOf_append, savesOf_append,
          savesOf_save, savesOf_select] at hs'
        have hfind : ∀ pr' ∈ (ratePhase q inp s).2.exploration_results,
            ∃ g ∈ get_flagged_criteria s q, g.criterion_id = pr'.1 := by
          refine hfd' ?_
          rw [hres0]
          intro pr' hpr'
          exact absurd hpr' (by simp)
        rcases List.mem_append.mp hs' with hs' | hlast
        · rcases List.mem_append.mp hs' with hs' | hclar
          · rcases List.mem_append.mp hs' with hrate | hnil
            · have := hRPguard s' hrate
              rw [hevst] at this
              exact absurd this.symm hnev
            · exact absurd hnil (by simp)
          · obtain ⟨s'', hes, hst, _, _⟩ :=
              hCPevts (Evt.save s') ((mem_savesOf _ _).mp hclar)
            have hse2 : s' = s'' := by simpa using hes
            subst hse2
            rw [hevst, hRPstage] at hst
            exact absurd hst.symm hnev
        · have hse : s' = { (clarPhase q inp s).2 with stage := .EVALUATION } := by
            simpa using hlast
          subst hse
          constructor
          · intro f hf
            refine hallC f ?_
            rw [get_flagged_resp q
              { (clarPhase q inp s).2 with stage := Stage.EVALUATION } s hCPresp] at hf
            exact hf
          · intro pr hpr hu
            rcases cuntouched hidsfind pr hpr with ⟨hin, hnotin⟩ | hct
            · cases hct2 : pr.2.clarification_transcript with
              | some v => simp
              | none =>
                exfalso
                have hctf : ctTruthy pr.2.clarification_transcript = false := by
                  rw [hct2]
                  rfl
                have hprsel : pr ∈ selPhase q inp s :=
                  needsClar_mem_intro _ _ pr hin hu hctf (hfind pr hin)
                exact hnotin (List.mem_map.mpr ⟨pr, hprsel, rfl⟩)
            · exact hct

/-! ## Stage order, chain glue, and crash-resume machinery -/

/-- The forward order on stages. -/
def stageLe (a b : Stage) : Prop := a.idx ≤ b.idx

lemma stageLe_refl (a : Stage) : stageLe a a := Nat.le_refl _

lemma stageLe_trans (a b c : Stage) (h1 : stageLe a b) (h2 : stageLe b c) :
    stageLe a c := Nat.le_trans h1 h2

instance (a b : Stage) : Decidable (stageLe a b) := by
  unfold stageLe
  infer_instance

/-- A stage chain from `x` through `l` ending at `y`. -/
def ChainTo (x : Stage) (l : List Stage) (y : Stage) : Prop :=
  List.Chain' stageLe (x :: l) ∧ (x :: l).getLast? = some y

lemma chainTo_nil (x : Stage) : ChainTo x [] x :=
  ⟨List.chain'_singleton x, rfl⟩

lemma chainTo_append (x y z : Stage) (l m : List Stage)
    (h1 : ChainTo x l y) (h2 : ChainTo y m z) : ChainTo x (l ++ m) z := by
  obtain ⟨hc1, hg1⟩ := h1
  obtain ⟨hc2, hg2⟩ := h2
  cases m with
  | nil =>
    have hyz : y = z := by simpa using hg2
    subst hyz
    constructor
    · simpa using hc1
    · simpa using hg1
  | cons b t =>
    constructor
    · rw [show x :: (l ++ b :: t) = (x :: l) ++ (b :: t) from rfl]
      refine List.Chain'.append hc1 ((List.chain'_cons.mp hc2).2) ?_
      intro p hp q hq
      rw [hg1] at hp
      have hp2 : y = p := by simpa using hp
      have hq2 : b = q := by simpa using hq
      rw [← hp2, ← hq2]
      exact (List.chain'_cons.mp hc2).1
    · rw [show x :: (l ++ b :: t) = (x :: l) ++ (b :: t) from rfl]
      rw [List.getLast?_append_of_ne_nil _ (by simp)]
      rw [List.getLast?_cons_cons] at hg2
      exact hg2

lemma chain_glue (x y : Stage) (l m : List Stage)
    (h1 : ChainTo x l y) (h2 : List.Chain' stageLe (y :: m)) :
    List.Chain' stageLe (x :: (l ++ m)) := by
  cases m with
  | nil => simpa using h1.1
  | cons b t =>
    rw [show x :: (l ++ b :: t) = (x :: l) ++ (b :: t) from rfl]
    refine List.Chain'.append h1.1 ((List.chain'_cons.mp h2).2) ?_
    intro p hp q hq
    rw [h1.2] at hp
    have hp2 : y = p := by simpa using hp
    have hq2 : b = q := by simpa using hq
    rw [← hp2, ← hq2]
    exact (List.chain'_cons.mp h2).1

lemma chainTo_replicate (x : Stage) (k : ℕ) :
    ChainTo x (List.replicate k x) x := by
  induction k with
  | zero => exact chainTo_nil x
  | succ k ih =>
    rw [List.replicate_succ]
    refine ⟨List.chain'_cons.mpr ⟨stageLe_refl x, ih.1⟩, ?_⟩
    rw [List.getLast?_cons_cons]
    exact ih.2

lemma chainTo_replicate_snoc (x y : Stage) (k : ℕ) (hxy : stageLe x y) :
    ChainTo x (List.replicate k x ++ [y]) y := by
  refine chainTo_append x x y _ _ (chainTo_replicate x k) ?_
  refine ⟨List.chain'_cons.mpr ⟨hxy, List.chain'_singleton y⟩, ?_⟩
  rw [List.getLast?_cons_cons]
  rfl

lemma chainTo_single (x y : Stage) (hxy : stageLe x y) :
    ChainTo x [y] y := by
  have := chainTo_replicate_snoc x y 0 hxy
  simpa using this

lemma dedupConsec_cons_cons (a b : Stage) (t : List Stage) :
    dedupConsec (a :: b :: t) =
      if a = b then dedupConsec (b :: t) else a :: dedupConsec (b :: t) := rfl

lemma dedupConsec_cons_replicate (x : Stage) (k : ℕ) (t : List Stage) :
    dedupConsec (x :: (List.replicate k x ++ t)) = dedupConsec (x :: t) := by
  induction k with
  | zero => simp
  | succ k ih =>
    rw [List.replicate_succ, List.cons_append, dedupConsec_cons_cons, if_pos rfl]
    exact ih

lemma lastSave_cons_save (s s1 : Session) (t : List Evt) :
    lastSave s (Evt.save s1 :: t) = lastSave s1 t := rfl

lemma lastSave_cons_select (s : Session) (m : List (String × ExplorationResult))
    (t : List Evt) : lastSave s (Evt.select m :: t) = lastSave s t := rfl

lemma savesOf_cons_save (s1 : Session) (t : List Evt) :
    savesOf (Evt.save s1 :: t) = s1 :: savesOf t := rfl

lemma savesOf_cons_select (m : List (String × ExplorationResult)) (t : List Evt) :
    savesOf (Evt.select m :: t) = savesOf t := rfl

lemma stagesOf_cons_save (s1 : Session) (t : List Evt) :
    stagesOf (Evt.save s1 :: t) = s1.stage :: stagesOf t := rfl

lemma selectsOf_cons_save (s1 : Session) (t : List Evt) :
    selectsOf (Evt.save s1 :: t) = selectsOf t := rfl

/-- The stage of the resumed record closes the stored stage chain. -/
lemma lastSave_getLast (s : Session) (l : List Evt) :
    (s.stage :: stagesOf l).getLast? = some (lastSave s l).stage := by
  induction l generalizing s with
  | nil => rfl
  | cons e t ih =>
    cases e with
    | save s1 =>
      rw [stagesOf_cons_save, lastSave_cons_save, List.getLast?_cons_cons]
      exact ih s1
    | select m =>
      rw [show stagesOf (Evt.select m :: t) = stagesOf t from rfl,
        lastSave_cons_select]
      exact ih s

/-- The resumed record is the starting one or one of the saved ones. -/
lemma lastSave_cases (s : Session) (l : List Evt) :
    lastSave s l = s ∨ Evt.save (lastSave s l) ∈ l := by
  induction l generalizing s with
  | nil => exact Or.inl rfl
  | cons e t ih =>
    cases e with
    | save s1 =>
      rw [lastSave_cons_save]
      rcases ih s1 with h | h
      · rw [h]
        exact Or.inr (List.mem_cons_self _ _)
      · exact Or.inr (List.mem_cons_of_mem _ h)
    | select m =>
      rw [lastSave_cons_select]
      rcases ih s with h | h
      · exact Or.inl h
      · exact Or.inr (List.mem_cons_of_mem _ h)

lemma savesOf_take_sub (l : List Evt) (n : ℕ) (s' : Session)
    (h : s' ∈ savesOf (l.take n)) : s' ∈ savesOf l := by
  rw [show savesOf l = savesOf (l.take n) ++ savesOf (l.drop n) from by
    rw [← savesOf_append, List.take_append_drop]]
  exact List.mem_append_left _ h

lemma selectsOf_take_sub (l : List Evt) (n : ℕ)
    (m : List (String × ExplorationResult))
    (h : m ∈ selectsOf (l.take n)) : m ∈ selectsOf l := by
  rw [show selectsOf l = selectsOf (l.take n) ++ selectsOf (l.drop n) from by
    rw [← selectsOf_append, List.take_append_drop]]
  exact List.mem_append_left _ h

lemma chain_stagesOf_take (s : Session) (l : List Evt) (n : ℕ)
    (h : List.Chain' stageLe (s.stage :: stagesOf l)) :
    List.Chain' stageLe (s.stage :: stagesOf (l.take n)) := by
  have hm : stagesOf (l.take n) =
      (stagesOf l).take (stagesOf (l.take n)).length := by
    conv_rhs => rw [show stagesOf l = stagesOf (l.take n) ++ stagesOf (l.drop n)
      from by rw [← stagesOf_append, List.take_append_drop]]
    rw [List.take_left]
  rw [hm]
  have := h.take ((stagesOf (l.take n)).length + 1)
  simpa using this

/-- A session with no stored results satisfies the pipeline invariant. -/
lemma pipeInv_of_nil (q : Questions) (s : Session)
    (h0 : s.exploration_results = []) : PipeInv q s := by
  refine ⟨fun _ => h0, fun hsp => ?_⟩
  exfalso
  rcases hsp with ⟨pr, hpr, _⟩
  rw [h0] at hpr
  exact absurd hpr (by simp)

lemma lastSave_pipeInv (q : Questions) (s : Session) (l : List Evt)
    (hinv : PipeInv q s) (hsaves : ∀ s' ∈ savesOf l, PipeInv q s') :
    PipeInv q (lastSave s l) := by
  rcases lastSave_cases s l with h | h
  · rw [h]
    exact hinv
  · exact hsaves _ ((mem_savesOf l _).mpr h)

/-! ## Phase-level consequences used by the stage machine -/

lemma ratePhase_sess (q : Questions) (inp : Inputs) (s : Session) :
    (ratePhase q inp s).2.stage = s.stage ∧
      (ratePhase q inp s).2.screening_responses = s.screening_responses := by
  obtain ⟨hsess, _, _, _, _, _⟩ :=
    rateFold_main (get_flagged_criteria s q) inp.rate1
      ((remainingOf q s).map (fun f => (f.criterion_id, inp.transcript1 f.criterion_id))) s
  exact hsess

lemma clarPhase_sess (q : Questions) (inp : Inputs) (s : Session) :
    (clarPhase q inp s).2.stage = s.stage ∧
      (clarPhase q inp s).2.screening_responses = s.screening_responses := by
  obtain ⟨csess, _, _, _⟩ :=
    clarFold_main (get_flagged_criteria s q) inp.rate2 inp.transcript2
      ((selPhase q inp s).map (fun p => p.1)) (ratePhase q inp s).2
  exact ⟨by rw [show (clarPhase q inp s).2.stage = (ratePhase q inp s).2.stage
      from csess.1, (ratePhase_sess q inp s).1],
    by rw [show (clarPhase q inp s).2.screening_responses =
      (ratePhase q inp s).2.screening_responses from csess.2,
      (ratePhase_sess q inp s).2]⟩

/-- After the first-pass rating loop, every flagged criterion has a stored
result. -/
lemma ratePhase_all_flagged (q : Questions) (inp : Inputs) (s : Session) :
    ∀ f ∈ get_flagged_criteria s q,
      memKey (ratePhase q inp s).2.exploration_results f.criterion_id = true := by
  obtain ⟨_, _, hmono, hpair, _, _⟩ :=
    rateFold_main (get_flagged_criteria s q) inp.rate1
      ((remainingOf q s).map (fun f => (f.criterion_id, inp.transcript1 f.criterion_id))) s
  intro f hf
  by_cases hm : memKey s.exploration_results f.criterion_id = true
  · exact hmono f.criterion_id hm
  · have hmf : memKey s.exploration_results f.criterion_id = false := by
      cases h : memKey s.exploration_results f.criterion_id
      · rfl
      · exact absurd h hm
    have hrm : f ∈ remainingOf q s := by
      unfold remainingOf
      exact List.mem_filter.mpr ⟨hf, by simp [hmf]⟩
    exact hpair (f.criterion_id, inp.transcript1 f.criterion_id)
      (List.mem_map.mpr ⟨f, hrm, rfl⟩) ⟨f, hf, rfl⟩

lemma clarPhase_all_flagged (q : Questions) (inp : Inputs) (s : Session) :
    ∀ f ∈ get_flagged_criteria s q,
      memKey (clarPhase q inp s).2.exploration_results f.criterion_id = true := by
  obtain ⟨_, cmono, _, _⟩ :=
    clarFold_main (get_flagged_criteria s q) inp.rate2 inp.transcript2
      ((selPhase q inp s).map (fun p => p.1)) (ratePhase q inp s).2
  intro f hf
  exact cmono f.criterion_id (ratePhase_all_flagged q inp s f hf)

lemma ratePhase_save_stage (q : Questions) (inp : Inputs) (s : Session) :
    ∀ s' ∈ savesOf (ratePhase q inp s).1, s'.stage = s.stage := by
  obtain ⟨_, _, _, _, _, hevts⟩ :=
    rateFold_main (get_flagged_criteria s q) inp.rate1
      ((remainingOf q s).map (fun f => (f.criterion_id, inp.transcript1 f.criterion_id))) s
  intro s' hs'
  obtain ⟨s'', hes, hst, _, _⟩ := hevts (Evt.save s') ((mem_savesOf _ _).mp hs')
  have hse : s' = s'' := by simpa using hes
  subst hse
  exact hst

lemma clarPhase_save_stage (q : Questions) (inp : Inputs) (s : Session) :
    ∀ s' ∈ savesOf (clarPhase q inp s).1, s'.stage = s.stage := by
  obtain ⟨_, _, _, cevts⟩ :=
    clarFold_main (get_flagged_criteria s q) inp.rate2 inp.transcript2
      ((selPhase q inp s).map (fun p => p.1)) (ratePhase q inp s).2
  intro s' hs'
  obtain ⟨s'', hes, hst, _, _⟩ := cevts (Evt.save s') ((mem_savesOf _ _).mp hs')
  have hse : s' = s'' := by simpa using hes
  subst hse
  rw [hst, (ratePhase_sess q inp s).1]

/-- Whenever the exploration phase saves a record at stage EVALUATION, every
flagged criterion of that record already has a stored result. -/
lemma explorationPart_evalsaves (q : Questions) (inp : Inputs) (s : Session)
    (hnev : s.stage ≠ .EVALUATION) :
    ∀ s' ∈ savesOf (explorationPart q inp s).1, s'.stage = .EVALUATION →
      ∀ f ∈ get_flagged_criteria s' q,
        memKey s'.exploration_results f.criterion_id = true := by
  by_cases hrem : (remainingOf q s).isEmpty = true
  case pos =>
    have heq : explorationPart q inp s =
        ([.save { s with stage := .EVALUATION }], { s with stage := .EVALUATION }) := by
      unfold explorationPart
      rw [if_pos hrem]
    rw [heq]
    intro s' hs' _
    rw [savesOf_save] at hs'
    have hse : s' = { s with stage := .EVALUATION } := by simpa using hs'
    subst hse
    intro f hf
    refine remainingOf_empty q s hrem f ?_
    rw [get_flagged_resp q s { s with stage := .EVALUATION } rfl]
    exact hf
  case neg =>
    by_cases hsel : (selPhase q inp s).isEmpty = true
    case pos =>
      have heq : explorationPart q inp s =
          ((ratePhase q inp s).1 ++
             [.save { (ratePhase q inp s).2 with stage := .EVALUATION }],
           { (ratePhase q inp s).2 with stage := .EVALUATION }) := by
        unfold explorationPart
        rw [if_neg hrem, if_pos hsel]
      rw [heq]
      intro s' hs' hevst
      rw [savesOf_append, savesOf_save] at hs'
      rcases List.mem_append.mp hs' with h | h
      · have := ratePhase_save_stage q inp s s' h
        rw [hevst] at this
        exact absurd this.symm hnev
      · have hse : s' = { (ratePhase q inp s).2 with stage := .EVALUATION } := by
          simpa using h
        subst hse
        intro f hf
        refine ratePhase_all_flagged q inp s f ?_
        rw [get_flagged_resp q
          { (ratePhase q inp s).2 with stage := Stage.EVALUATION } s
          (ratePhase_sess q inp s).2] at hf
        exact hf
    case neg =>
      have heq : explorationPart q inp s =
          ((ratePhase q inp s).1 ++ [.select (selPhase q inp s)] ++
             (clarPhase q inp s).1 ++
             [.save { (clarPhase q inp s).2 with stage := .EVALUATION }],
           { (clarPhase q inp s).2 with stage := .EVALUATION }) := by
        unfold explorationPart
        rw [if_neg hrem, if_neg hsel]
      rw [heq]
      intro s' hs' hevst
      rw [savesOf_append, savesOf_append, savesOf_append,
        savesOf_save, savesOf_select] at hs'
      rcases List.mem_append.mp hs' with hs' | hlast
      · rcases List.mem_append.mp hs' with hs' | hclar
        · rcases List.mem_append.mp hs' with hrate | hnil
          · have := ratePhase_save_stage q inp s s' hrate
            rw [hevst] at this
            exact absurd this.symm hnev
          · exact absurd hnil (by simp)
        · have := clarPhase_save_stage q inp s s' hclar
          rw [hevst] at this
          exact absurd this.symm hnev
      · have hse : s' = { (clarPhase q inp s).2 with stage := .EVALUATION } := by
          simpa using hlast
        subst hse
        intro f hf
        refine clarPhase_all_flagged q inp s f ?_
        rw [get_flagged_resp q
          { (clarPhase q inp s).2 with stage := Stage.EVALUATION } s
          (clarPhase_sess q inp s).2] at hf
        exact hf

/-- Transport of the pipeline invariant along a session whose results and
responses are unchanged and whose stage moved off INIT. -/
lemma pipeInv_same (q : Questions) (s s' : Session) (hinv : PipeInv q s)
    (hres : s'.exploration_results = s.exploration_results)
    (hresp : s'.screening_responses = s.screening_responses)
    (hni : s'.stage ≠ .INIT) : PipeInv q s' := by
  constructor
  · intro hc
    exact absurd hc hni
  · intro hsp f hf
    rw [hres]
    refine hinv.2 ?_ f ?_
    · rcases hsp with ⟨pr, hpr, hct⟩
      rw [hres] at hpr
      exact ⟨pr, hpr, hct⟩
    · rw [get_flagged_resp q s s' hresp.symm]
      exact hf

/-- The self-report phase from a fresh INIT record: every selection is a
first-pass one, every save keeps the invariant, the run ends at EVALUATION,
the stored stages are SELF_REPORT, EXPLORATION (repeated), EVALUATION, and
an EVALUATION-staged save has a result for every flagged criterion. -/
lemma selfReportPart_main (q : Questions) (inp : Inputs) (s : Session)
    (hstage : s.stage = .INIT) (hinv : PipeInv q s) :
    (∀ sel ∈ selectsOf (selfReportPart q inp s).1, ∀ pr ∈ sel,
      pr.2.unresolved = true ∧ pr.2.clarification_transcript = none) ∧
    (∀ s' ∈ savesOf (selfReportPart q inp s).1, PipeInv q s') ∧
    PipeInv q (selfReportPart q inp s).2 ∧
    (selfReportPart q inp s).2.stage = .EVALUATION ∧
    (∃ k, stagesOf (selfReportPart q inp s).1 =
      Stage.SELF_REPORT :: Stage.EXPLORATION ::
        (List.replicate k Stage.EXPLORATION ++ [Stage.EVALUATION])) ∧
    (∀ s' ∈ savesOf (selfReportPart q inp s).1, s'.stage = .EVALUATION →
      ∀ f ∈ get_flagged_criteria s' q,
        memKey s'.exploration_results f.criterion_id = true) := by
  have hres0 : s.exploration_results = [] := hinv.1 hstage
  have hinv1 : PipeInv q
      { s with screening_responses := inp.responses, stage := .SELF_REPORT } :=
    pipeInv_of_nil q _ hres0
  have hinv2 : PipeInv q
      { s with screening_responses := inp.responses, stage := .EXPLORATION } :=
    pipeInv_of_nil q _ hres0
  obtain ⟨esel, esave, einv, estage, ⟨k, hk⟩, _⟩ :=
    explorationPart_main q inp
      { s with screening_responses := inp.responses, stage := .EXPLORATION }
      (by simp) hinv2
  have heq : selfReportPart q inp s =
      (Evt.save { s with screening_responses := inp.responses, stage := .SELF_REPORT } ::
       Evt.save { s with screening_responses := inp.responses, stage := .EXPLORATION } ::
       (explorationPart q inp
         { s with screening_responses := inp.responses, stage := .EXPLORATION }).1,
       (explorationPart q inp
         { s with screening_responses := inp.responses, stage := .EXPLORATION }).2) := rfl
  rw [heq]
  refine ⟨?_, ?_, einv, estage, ?_, ?_⟩
  · intro sel hsel
    rw [selectsOf_cons_save, selectsOf_cons_save] at hsel
    exact esel sel hsel
  · intro s' hs'
    rw [savesOf_cons_save, savesOf_cons_save] at hs'
    rcases List.mem_cons.mp hs' with hse | hs'
    · rw [hse]
      exact hinv1
    · rcases List.mem_cons.mp hs' with hse | hs'
      · rw [hse]
        exact hinv2
      · exact esave s' hs'
  · refine ⟨k, ?_⟩
    rw [stagesOf_cons_save, stagesOf_cons_save, hk]
  · intro s' hs' hevst
    rw [savesOf_cons_save, savesOf_cons_save] at hs'
    rcases List.mem_cons.mp hs' with hse | hs'
    · rw [hse] at hevst
      exact absurd hevst (by simp)
    · rcases List.mem_cons.mp hs' with hse | hs'
      · rw [hse] at hevst
        exact absurd hevst (by simp)
      · exact explorationPart_evalsaves q inp
          { s with screening_responses := inp.responses, stage := .EXPLORATION }
          (by simp) s' hs' hevst

/-- The guarded GUI step of `main()`: selections are first-pass, saves keep
the invariant, the stage chain moves forward, and EVALUATION-staged saves
carry a result for every flagged criterion. -/
lemma guiStep_main (q : Questions) (inp : Inputs) (s : Session)
    (hinv : PipeInv q s) :
    (∀ sel ∈ selectsOf (guiStep q inp s).1, ∀ pr ∈ sel,
      pr.2.unresolved = true ∧ pr.2.clarification_transcript = none) ∧
    (∀ s' ∈ savesOf (guiStep q inp s).1, PipeInv q s') ∧
    PipeInv q (guiStep q inp s).2 ∧
    ChainTo s.stage (stagesOf (guiStep q inp s).1) (guiStep q inp s).2.stage ∧
    (∀ s' ∈ savesOf (guiStep q inp s).1, s'.stage = .EVALUATION →
      ∀ f ∈ get_flagged_criteria s' q,
        memKey s'.exploration_results f.criterion_id = true) := by
  unfold guiStep
  by_cases hg : s.stage = .INIT ∨ s.stage = .SELF_REPORT ∨ s.stage = .EXPLORATION
  case pos =>
    rw [if_pos hg]
    unfold guiPipeline
    by_cases hI : s.stage = .INIT
    case pos =>
      rw [if_pos hI]
      obtain ⟨hsel, hsave, hfin, hst, ⟨k, hk⟩, hev⟩ :=
        selfReportPart_main q inp s hI hinv
      refine ⟨hsel, hsave, hfin, ?_, hev⟩
      rw [hk, hst, hI]
      rw [show Stage.SELF_REPORT :: Stage.EXPLORATION ::
        (List.replicate k Stage.EXPLORATION ++ [Stage.EVALUATION]) =
        [Stage.SELF_REPORT] ++ ([Stage.EXPLORATION] ++
          (List.replicate k Stage.EXPLORATION ++ [Stage.EVALUATION])) from rfl]
      exact chainTo_append _ _ _ _ _
        (chainTo_single .INIT .SELF_REPORT (by decide))
        (chainTo_append _ _ _ _ _
          (chainTo_single .SELF_REPORT .EXPLORATION (by decide))
          (chainTo_replicate_snoc .EXPLORATION .EVALUATION k (by decide)))
    case neg =>
      rw [if_neg hI]
      obtain ⟨hsel, hsave, hfin, hst, ⟨k, hk⟩, _⟩ :=
        explorationPart_main q inp s hI hinv
      have hnev : s.stage ≠ .EVALUATION := by
        rcases hg with h | h | h
        · exact absurd h hI
        · rw [h]
          simp
        · rw [h]
          simp
      refine ⟨hsel, hsave, hfin, ?_, explorationPart_evalsaves q inp s hnev⟩
      rw [hk, hst]
      refine chainTo_replicate_snoc s.stage .EVALUATION k ?_
      rcases hg with h | h | h
      · exact absurd h hI
      · rw [h]
        decide
      · rw [h]
        decide
  case neg =>
    rw [if_neg hg]
    refine ⟨?_, ?_, hinv, chainTo_nil s.stage, ?_⟩
    · intro sel hsel
      exact absurd hsel (by simp [selectsOf])
    · intro s' hs'
      exact absurd hs' (by simp [savesOf])
    · intro s' hs'
      exact absurd hs' (by simp [savesOf])

/-- The guarded evaluation step of `main()`. -/
lemma evalStep_main (q : Questions) (s1 : Session) (hinv : PipeInv q s1) :
    selectsOf (evalStep q s1).1 = [] ∧
    (∀ s' ∈ savesOf (evalStep q s1).1, PipeInv q s') ∧
    PipeInv q (evalStep q s1).2 ∧
    ChainTo s1.stage (stagesOf (evalStep q s1).1) (evalStep q s1).2.stage ∧
    (∀ s' ∈ savesOf (evalStep q s1).1, s'.stage ≠ .EVALUATION) := by
  unfold evalStep
  by_cases h : s1.stage = .EVALUATION
  case pos =>
    rw [if_pos h]
    have hinvE : PipeInv q (run_evaluation_step q s1) :=
      pipeInv_same q s1 _ hinv rfl rfl (by simp [run_evaluation_step])
    have hrs : (run_evaluation_step q s1).stage = .REPORT := rfl
    refine ⟨rfl, ?_, hinvE, ?_, ?_⟩
    · intro s' hs'
      rw [savesOf_save] at hs'
      have hse : s' = run_evaluation_step q s1 := by simpa using hs'
      rw [hse]
      exact hinvE
    · rw [stagesOf_save, hrs, h]
      exact chainTo_single .EVALUATION .REPORT (by decide)
    · intro s' hs'
      rw [savesOf_save] at hs'
      have hse : s' = run_evaluation_step q s1 := by simpa using hs'
      rw [hse, hrs]
      decide
  case neg =>
    rw [if_neg h]
    refine ⟨rfl, ?_, hinv, chainTo_nil s1.stage, ?_⟩
    · intro s' hs'
      exact absurd hs' (by simp [savesOf])
    · intro s' hs'
      exact absurd hs' (by simp [savesOf])

/-- The guarded report step of `main()`. -/
lemma reportStep_main (q : Questions) (s2 : Session) (hinv : PipeInv q s2) :
    selectsOf (reportStep s2).1 = [] ∧
    (∀ s' ∈ savesOf (reportStep s2).1, PipeInv q s') ∧
    ChainTo s2.stage (stagesOf (reportStep s2).1) (reportStep s2).2.stage ∧
    (∀ s' ∈ savesOf (reportStep s2).1, s'.stage ≠ .EVALUATION) := by
  unfold reportStep
  by_cases h : s2.stage = .REPORT
  case pos =>
    rw [if_pos h]
    have hinvC : PipeInv q ({ s2 with stage := Stage.COMPLETE } : Session) :=
      pipeInv_same q s2 _ hinv rfl rfl (by simp)
    refine ⟨rfl, ?_, ?_, ?_⟩
    · intro s' hs'
      rw [savesOf_save] at hs'
      have hse : s' = { s2 with stage := Stage.COMPLETE } := by simpa using hs'
      rw [hse]
      exact hinvC
    · rw [stagesOf_save, show ({ s2 with stage := Stage.COMPLETE } : Session).stage =
        Stage.COMPLETE from rfl, h]
      exact chainTo_single .REPORT .COMPLETE (by decide)
    · intro s' hs'
      rw [savesOf_save] at hs'
      have hse : s' = { s2 with stage := Stage.COMPLETE } := by simpa using hs'
      rw [hse]
      simp
  case neg =>
    rw [if_neg h]
    refine ⟨rfl, ?_, chainTo_nil s2.stage, ?_⟩
    · intro s' hs'
      exact absurd hs' (by simp [savesOf])
    · intro s' hs'
      exact absurd hs' (by simp [savesOf])

/-- One full process run from an invariant-satisfying durable record:
selections are first-pass, saves keep the invariant, the stored stage chain
never moves backwards, and EVALUATION is only stored with every flagged
criterion resolved to a result. -/
lemma processRun_main (q : Questions) (inp : Inputs) (s : Session)
    (hinv : PipeInv q s) :
    (∀ sel ∈ selectsOf (processRun q inp s), ∀ pr ∈ sel,
      pr.2.unresolved = true ∧ pr.2.clarification_transcript = none) ∧
    (∀ s' ∈ savesOf (processRun q inp s), PipeInv q s') ∧
    List.Chain' stageLe (s.stage :: stagesOf (processRun q inp s)) ∧
    (∀ s' ∈ savesOf (processRun q inp s), s'.stage = .EVALUATION →
      ∀ f ∈ get_flagged_criteria s' q,
        memKey s'.exploration_results f.criterion_id = true) := by
  obtain ⟨gsel, gsave, ginv, gchain, gev⟩ := guiStep_main q inp s hinv
  obtain ⟨esel, esave, einv, echain, eev⟩ :=
    evalStep_main q (guiStep q inp s).2 ginv
  obtain ⟨rsel, rsave, rchain, rev⟩ :=
    reportStep_main q (evalStep q (guiStep q inp s).2).2 einv
  rw [show processRun q inp s = (guiStep q inp s).1 ++
    (evalStep q (guiStep q inp s).2).1 ++
    (reportStep (evalStep q (guiStep q inp s).2).2).1 from rfl]
  refine ⟨?_, ?_, ?_, ?_⟩
  · intro sel hsel
    rw [selectsOf_append, selectsOf_append, esel, rsel] at hsel
    simp only [List.append_nil] at hsel
    exact gsel sel hsel
  · intro s' hs'
    rw [savesOf_append, savesOf_append] at hs'
    rcases List.mem_append.mp hs' with hs' | hr
    · rcases List.mem_append.mp hs' with hgm | hem
      · exact gsave s' hgm
      · exact esave s' hem
    · exact rsave s' hr
  · rw [stagesOf_append, stagesOf_append]
    exact chain_glue _ _ _ _ (chainTo_append _ _ _ _ _ gchain echain) rchain.1
  · intro s' hs' hevst
    rw [savesOf_append, savesOf_append] at hs'
    rcases List.mem_append.mp hs' with hs' | hr
    · rcases List.mem_append.mp hs' with hgm | hem
      · exact gev s' hgm hevst
      · exact absurd hevst (eev s' hem)
    · exact absurd hevst (rev s' hr)

/-- A fresh uninterrupted run stores the stages SELF_REPORT, EXPLORATION
(possibly repeated by the per-criterion saves), EVALUATION, REPORT,
COMPLETE, in this order. -/
lemma processRun_fresh_shape (q : Questions) (inp : Inputs) (s : Session)
    (hstage : s.stage = .INIT) (hinv : PipeInv q s) :
    ∃ k, stagesOf (processRun q inp s) =
      Stage.SELF_REPORT :: Stage.EXPLORATION ::
        (List.replicate k Stage.EXPLORATION ++
          [Stage.EVALUATION, Stage.REPORT, Stage.COMPLETE]) := by
  have hgeq : guiStep q inp s = selfReportPart q inp s := by
    unfold guiStep
    rw [if_pos (Or.inl hstage)]
    unfold guiPipeline
    rw [if_pos hstage]
  obtain ⟨_, _, _, hst, ⟨k, hk⟩, _⟩ := selfReportPart_main q inp s hstage hinv
  have heeq : evalStep q (guiStep q inp s).2 =
      ([Evt.save (run_evaluation_step q (guiStep q inp s).2)],
       run_evaluation_step q (guiStep q inp s).2) := by
    unfold evalStep
    rw [if_pos (by rw [hgeq]; exact hst)]
  have hreq : reportStep (evalStep q (guiStep q inp s).2).2 =
      ([Evt.save { (evalStep q (guiStep q inp s).2).2 with stage := Stage.COMPLETE }],
       { (evalStep q (guiStep q inp s).2).2 with stage := Stage.COMPLETE }) := by
    unfold reportStep
    rw [if_pos (by rw [heeq]; rfl)]
  refine ⟨k, ?_⟩
  rw [show processRun q inp s = (guiStep q inp s).1 ++
    (evalStep q (guiStep q inp s).2).1 ++
    (reportStep (evalStep q (guiStep q inp s).2).2).1 from rfl]
  rw [stagesOf_append, stagesOf_append, hreq, heeq, hgeq, hk]
  simp [stagesOf, savesOf, run_evaluation_step]

/-- From a fresh INIT record, the self-report phase only saves EVALUATION
with final results: every flagged criterion has a result and no unresolved
result lacks a clarification transcript. -/
lemma selfReportPart_fresh_guard (q : Questions) (inp : Inputs) (s : Session)
    (hstage : s.stage = .INIT) (hinv : PipeInv q s) :
    ∀ s' ∈ savesOf (selfReportPart q inp s).1, s'.stage = .EVALUATION →
      (∀ f ∈ get_flagged_criteria s' q,
        memKey s'.exploration_results f.criterion_id = true) ∧
      (∀ pr ∈ s'.exploration_results, pr.2.unresolved = true →
        pr.2.clarification_transcript ≠ none) := by
  have hres0 : s.exploration_results = [] := hinv.1 hstage
  have hinv2 : PipeInv q
      { s with screening_responses := inp.responses, stage := .EXPLORATION } :=
    pipeInv_of_nil q _ hres0
  obtain ⟨_, _, _, _, _, hguard⟩ :=
    explorationPart_main q inp
      { s with screening_responses := inp.responses, stage := .EXPLORATION }
      (by simp) hinv2
  have heq : selfReportPart q inp s =
      (Evt.save { s with screening_responses := inp.responses, stage := .SELF_REPORT } ::
       Evt.save { s with screening_responses := inp.responses, stage := .EXPLORATION } ::
       (explorationPart q inp
         { s with screening_responses := inp.responses, stage := .EXPLORATION }).1,
       (explorationPart q inp
         { s with screening_responses := inp.responses, stage := .EXPLORATION }).2) := rfl
  rw [heq]
  intro s' hs' hevst
  rw [savesOf_cons_save, savesOf_cons_save] at hs'
  rcases List.mem_cons.mp hs' with hse | hs'
  · rw [hse] at hevst
    exact absurd hevst (by simp)
  · rcases List.mem_cons.mp hs' with hse | hs'
    · rw [hse] at hevst
      exact absurd hevst (by simp)
    · exact hguard hres0 (by simp) s' hs' hevst

/-- In a fresh uninterrupted run, every EVALUATION-staged save carries final
results: every flagged criterion has a result and no unresolved result lacks
a clarification transcript. -/
lemma processRun_fresh_guard (q : Questions) (inp : Inputs)
    (sid ts lang : String) :
    ∀ s' ∈ savesOf (processRun q inp (create_session sid ts lang)),
      s'.stage = .EVALUATION →
        (∀ f ∈ get_flagged_criteria s' q,
          memKey s'.exploration_results f.criterion_id = true) ∧
        (∀ pr ∈ s'.exploration_results, pr.2.unresolved = true →
          pr.2.clarification_transcript ≠ none) := by
  have hinv : PipeInv q (create_session sid ts lang) := pipeInv_of_nil q _ rfl
  have hgeq : guiStep q inp (create_session sid ts lang) =
      selfReportPart q inp (create_session sid ts lang) := by
    unfold guiStep
    rw [if_pos (Or.inl (show (create_session sid ts lang).stage = Stage.INIT
      from rfl))]
    unfold guiPipeline
    rw [if_pos (show (create_session sid ts lang).stage = Stage.INIT from rfl)]
  obtain ⟨_, _, ginv, _, _⟩ := guiStep_main q inp (create_session sid ts lang) hinv
  obtain ⟨_, _, einv, _, eev⟩ :=
    evalStep_main q (guiStep q inp (create_session sid ts lang)).2 ginv
  obtain ⟨_, _, _, rev⟩ :=
    reportStep_main q (evalStep q (guiStep q inp (create_session sid ts lang)).2).2 einv
  rw [show processRun q inp (create_session sid ts lang) =
    (guiStep q inp (create_session sid ts lang)).1 ++
    (evalStep q (guiStep q inp (create_session sid ts lang)).2).1 ++
    (reportStep (evalStep q (guiStep q inp (create_session sid ts lang)).2).2).1
    from rfl]
  intro s' hs' hevst
  rw [savesOf_append, savesOf_append] at hs'
  rcases List.mem_append.mp hs' with hs' | hr
  · rcases List.mem_append.mp hs' with hgm | hem
    · rw [hgeq] at hgm
      exact selfReportPart_fresh_guard q inp (create_session sid ts lang)
        rfl hinv s' hgm hevst
    · exact absurd hevst (eev s' hem)
  · exact absurd hevst (rev s' hr)

/-- Along any chain of (possibly crashed and resumed) runs from an
invariant-satisfying record: selections are first-pass, saves keep the
invariant, the stored stage chain is monotone, and EVALUATION-staged saves
resolve every flagged criterion. -/
lemma reachLog_main (q : Questions) (s : Session) (log : List Evt)
    (h : ReachLog q s log) :
    PipeInv q s →
    (∀ sel ∈ selectsOf log, ∀ pr ∈ sel,
      pr.2.unresolved = true ∧ pr.2.clarification_transcript = none) ∧
    (∀ s' ∈ savesOf log, PipeInv q s') ∧
    List.Chain' stageLe (s.stage :: stagesOf log) ∧
    (∀ s' ∈ savesOf log, s'.stage = .EVALUATION →
      ∀ f ∈ get_flagged_criteria s' q,
        memKey s'.exploration_results f.criterion_id = true) := by
  induction h with
  | nil s =>
    intro _
    refine ⟨?_, ?_, List.chain'_singleton _, ?_⟩
    · intro sel hsel
      exact absurd hsel (by simp [selectsOf])
    · intro s' hs'
      exact absurd hs' (by simp [savesOf])
    · intro s' hs'
      exact absurd hs' (by simp [savesOf])
  | step s inp n rest hrest ih =>
    intro hinv
    obtain ⟨rsel, rsave, rchain, rev⟩ := processRun_main q inp s hinv
    have hinvL : PipeInv q (lastSave s ((processRun q inp s).take n)) :=
      lastSave_pipeInv q s _ hinv
        (fun s' hs' => rsave s' (savesOf_take_sub _ n s' hs'))
    obtain ⟨isel, isave, ichain, iev⟩ := ih hinvL
    refine ⟨?_, ?_, ?_, ?_⟩
    · intro sel hsel
      rw [selectsOf_append] at hsel
      rcases List.mem_append.mp hsel with hm | hm
      · exact rsel sel (selectsOf_take_sub _ n sel hm)
      · exact isel sel hm
    · intro s' hs'
      rw [savesOf_append] at hs'
      rcases List.mem_append.mp hs' with hm | hm
      · exact rsave s' (savesOf_take_sub _ n s' hm)
      · exact isave s' hm
    · rw [stagesOf_append]
      exact chain_glue _ _ _ _
        ⟨chain_stagesOf_take s _ n rchain, lastSave_getLast s _⟩ ichain
    · intro s' hs' hevst
      rw [savesOf_append] at hs'
      rcases List.mem_append.mp hs' with hm | hm
      · exact rev s' (savesOf_take_sub _ n s' hm) hevst
      · exact iev s' hm hevst

/-- C5 (amended): over the crash-resume semantics of main.py 146-318,
(i) along every chain of possibly crashed and resumed runs from a fresh
session, the stored stage sequence never moves backwards in the fixed order
INIT, SELF_REPORT, EXPLORATION, EVALUATION, REPORT, COMPLETE;
(ii) whenever a record is saved at stage EVALUATION, every flagged
criterion has some stored ExplorationResult; (iii) a fresh uninterrupted
run passes through exactly the six stages in order with no skips; and
(iv) in a fresh uninterrupted run every EVALUATION-staged save carries
final results — every flagged criterion has a result and no unresolved
result lacks a clarification transcript.  The literal claim fails for
resumed runs on two counts (`C5_skip_counterexample`): the stored sequence
can skip the EXPLORATION label, and EVALUATION can be stored while an
unresolved result still has its clarification pending. -/
theorem C5_stage_machine :
    (∀ (q : Questions) (sid ts lang : String) (log : List Evt),
      ReachLog q (create_session sid ts lang) log →
      List.Chain' stageLe ((create_session sid ts lang).stage :: stagesOf log)) ∧
    (∀ (q : Questions) (sid ts lang : String) (log : List Evt),
      ReachLog q (create_session sid ts lang) log →
      ∀ s' ∈ savesOf log, s'.stage = .EVALUATION →
        ∀ f ∈ get_flagged_criteria s' q,
          memKey s'.exploration_results f.criterion_id = true) ∧
    (∀ (q : Questions) (inp : Inputs) (sid ts lang : String),
      dedupConsec ((create_session sid ts lang).stage ::
          stagesOf (processRun q inp (create_session sid ts lang))) =
        [.INIT, .SELF_REPORT, .EXPLORATION, .EVALUATION, .REPORT, .COMPLETE]) ∧
    (∀ (q : Questions) (inp : Inputs) (sid ts lang : String),
      ∀ s' ∈ savesOf (processRun q inp (create_session sid ts lang)),
        s'.stage = .EVALUATION →
          (∀ f ∈ get_flagged_criteria s' q,
            memKey s'.exploration_results f.criterion_id = true) ∧
          (∀ pr ∈ s'.exploration_results, pr.2.unresolved = true →
            pr.2.clarification_transcript ≠ none)) := by
  refine ⟨?_, ?_, ?_, ?_⟩
  · intro q sid ts lang log h
    exact (reachLog_main q _ log h (pipeInv_of_nil q _ rfl)).2.2.1
  · intro q sid ts lang log h
    exact (reachLog_main q _ log h (pipeInv_of_nil q _ rfl)).2.2.2
  · intro q inp sid ts lang
    obtain ⟨k, hk⟩ := processRun_fresh_shape q inp (create_session sid ts lang)
      rfl (pipeInv_of_nil q _ rfl)
    rw [hk, show (create_session sid ts lang).stage = Stage.INIT from rfl]
    rw [dedupConsec_cons_cons, if_neg (by decide)]
    rw [dedupConsec_cons_cons, if_neg (by decide)]
    rw [dedupConsec_cons_replicate]
    rfl
  · intro q inp sid ts lang
    exact processRun_fresh_guard q inp sid ts lang

/-- Witness for C5: a crash-free prefix of a fresh run has a monotone stored
stage chain; the fresh run's deduplicated stage sequence is exactly the six
stages; and the EVALUATION-staged save of a fresh run on the one-criterion
bank carries final results. -/
theorem C5_stage_machine_witness :
    List.Chain' stageLe ((create_session "s" "t" "de").stage ::
      stagesOf ((processRun qEmpty trivialInputs
        (create_session "s" "t" "de")).take 2 ++ [])) ∧
    dedupConsec ((create_session "s" "t" "de").stage ::
      stagesOf (processRun qEmpty trivialInputs (create_session "s" "t" "de"))) =
      [.INIT, .SELF_REPORT, .EXPLORATION, .EVALUATION, .REPORT, .COMPLETE] ∧
    ((∀ f ∈ get_flagged_criteria
        ((savesOf (processRun qbC8 inpC8 (create_session "s" "t" "de"))).getD 4
          (create_session "s" "t" "de")) qbC8,
      memKey ((savesOf (processRun qbC8 inpC8
          (create_session "s" "t" "de"))).getD 4
          (create_session "s" "t" "de")).exploration_results
        f.criterion_id = true) ∧
     (∀ pr ∈ ((savesOf (processRun qbC8 inpC8
          (create_session "s" "t" "de"))).getD 4
          (create_session "s" "t" "de")).exploration_results,
       pr.2.unresolved = true → pr.2.clarification_transcript ≠ none)) :=
  ⟨C5_stage_machine.1 qEmpty "s" "t" "de" _
     (ReachLog.step _ trivialInputs 2 [] (ReachLog.nil _)),
   C5_stage_machine.2.2.1 qEmpty trivialInputs "s" "t" "de",
   C5_stage_machine.2.2.2 qbC8 inpC8 "s" "t" "de" _ (by decide) (by decide)⟩

/-- C5 counterexample, two divergences of the literal claim on resumed
runs.  First, a crash right after the first SELF_REPORT save, resumed with
a bank that flags nothing, stores EVALUATION directly after SELF_REPORT —
the stored stage sequence skips EXPLORATION.  Second, a crash right after
the last first-pass rating save (whose result is unresolved with no
clarification transcript), resumed, finds `remaining` empty, skips the
clarification round, and stores EVALUATION while the flagged criterion
still lacks a final (clarification-complete) ExplorationResult. -/
theorem C5_skip_counterexample :
    (∃ log : List Evt,
      ReachLog qEmpty (create_session "s" "t" "de") log ∧
      stagesOf log = [.SELF_REPORT, .EVALUATION, .REPORT, .COMPLETE] ∧
      Stage.nextStage .SELF_REPORT ≠ .EVALUATION) ∧
    (∃ log : List Evt,
      ReachLog qbC8 (create_session "s" "t" "de") log ∧
      ∃ s' ∈ savesOf log, s'.stage = .EVALUATION ∧
        ∃ pr ∈ s'.exploration_results,
          pr.2.unresolved = true ∧ pr.2.clarification_transcript = none) := by
  constructor
  · refine ⟨(processRun qEmpty trivialInputs (create_session "s" "t" "de")).take 1 ++
      ((processRun qEmpty trivialInputs
          (lastSave (create_session "s" "t" "de")
            ((processRun qEmpty trivialInputs
              (create_session "s" "t" "de")).take 1))).take 3 ++ []),
      ?_, ?_, by decide⟩
    · exact ReachLog.step _ trivialInputs 1 _
        (ReachLog.step _ trivialInputs 3 [] (ReachLog.nil _))
    · rfl
  · refine ⟨(processRun qbC8 inpC8 (create_session "s" "t" "de")).take 3 ++
      ((processRun qbC8 inpC8
          (lastSave (create_session "s" "t" "de")
            ((processRun qbC8 inpC8
              (create_session "s" "t" "de")).take 3))).take 3 ++ []),
      ?_, ?_⟩
    · exact ReachLog.step _ inpC8 3 _
        (ReachLog.step _ inpC8 3 [] (ReachLog.nil _))
    · decide

/-- C8: each criterion receives at most one clarification pass per session —
along every chain of possibly crashed and resumed runs from a fresh session,
every clarification selection contains only results that are unresolved and
carry no clarification transcript yet; a post-clarification result always
stores its clarification transcript, so it is never selected again. -/
theorem C8_clarification_once (q : Questions) (sid ts lang : String)
    (log : List Evt) (h : ReachLog q (create_session sid ts lang) log) :
    ∀ sel ∈ selectsOf log, ∀ pr ∈ sel,
      pr.2.unresolved = true ∧ pr.2.clarification_transcript = none :=
  (reachLog_main q _ log h (pipeInv_of_nil q _ rfl)).1

/-- Witness for C8: a bank with one flagged criterion whose first rating is
unresolved produces exactly one clarification selection, and every selected
result is first-pass. -/
theorem C8_clarification_once_witness :
    (selectsOf ((processRun qbC8 inpC8
      (create_session "s" "t" "de")).take 9 ++ [])).length = 1 ∧
    ∀ sel ∈ selectsOf ((processRun qbC8 inpC8
        (create_session "s" "t" "de")).take 9 ++ []),
      ∀ pr ∈ sel, pr.2.unresolved = true ∧ pr.2.clarification_transcript = none :=
  ⟨rfl, C8_clarification_once qbC8 "s" "t" "de" _
    (ReachLog.step _ inpC8 9 [] (ReachLog.nil _))⟩

end Scid
